import Mathlib

/-!
# Verification of the iotpro authentication core

Shallow embedding of the authentication backend (Cloudflare worker code):
the D1-backed `functions/api/auth.js` handler (`onRequest`) with its
`hashPassword`, `makeRecoveryCode`, `generateJWT`, `verifyJWT` helpers, and
the KV-backed variant's `handleSignUp` / `handleLogin` / `createJWT`
(`src/index.js` / `src/auth.js`).

Platform primitives that the source calls (SHA-256 via `crypto.subtle.digest`,
HMAC via `crypto.subtle.sign`/`verify`, `btoa`/`atob`, `JSON.stringify`/
`JSON.parse`, `String.prototype.split/trim/toLowerCase`) are embedded
faithfully as executable Lean functions over byte lists / char lists.
Time (`Date.now()`, milliseconds) and randomness (`crypto.getRandomValues`,
the uuid salt) are passed as explicit parameters.
-/

set_option maxRecDepth 1000000

namespace Iotpro

/-! ## SHA-256 (model of `crypto.subtle.digest("SHA-256", ·)`)

Bytes are `Nat`s below 256, words are `Nat`s below 2^32. -/

def w32 (n : Nat) : Nat := n % 4294967296

def rotr (x n : Nat) : Nat := w32 ((x >>> n) ||| (x <<< (32 - n)))

def shaK : List Nat :=
  [1116352408, 1899447441, 3049323471, 3921009573, 961987163, 1508970993,
   2453635748, 2870763221, 3624381080, 310598401, 607225278, 1426881987,
   1925078388, 2162078206, 2614888103, 3248222580, 3835390401, 4022224774,
   264347078, 604807628, 770255983, 1249150122, 1555081692, 1996064986,
   2554220882, 2821834349, 2952996808, 3210313671, 3336571891, 3584528711,
   113926993, 338241895, 666307205, 773529912, 1294757372, 1396182291,
   1695183700, 1986661051, 2177026350, 2456956037, 2730485921, 2820302411,
   3259730800, 3345764771, 3516065817, 3600352804, 4094571909, 275423344,
   430227734, 506948616, 659060556, 883997877, 958139571, 1322822218,
   1537002063, 1747873779, 1955562222, 2024104815, 2227730452, 2361852424,
   2428436474, 2756734187, 3204031479, 3329325298]

def shaH0 : List Nat :=
  [1779033703, 3144134277, 1013904242, 2773480762,
   1359893119, 2600822924, 528734635, 1541459225]

def bsig0 (x : Nat) : Nat := (rotr x 2) ^^^ (rotr x 13) ^^^ (rotr x 22)
def bsig1 (x : Nat) : Nat := (rotr x 6) ^^^ (rotr x 11) ^^^ (rotr x 25)
def ssig0 (x : Nat) : Nat := (rotr x 7) ^^^ (rotr x 18) ^^^ (x >>> 3)
def ssig1 (x : Nat) : Nat := (rotr x 17) ^^^ (rotr x 19) ^^^ (x >>> 10)

/-- Extend 16 message words to 64; `acc` holds the words built so far,
newest first. -/
def shaExtend : Nat → List Nat → List Nat
  | 0, acc => acc.reverse
  | fuel + 1, acc =>
      let w2 := acc.getD 1 0
      let w7 := acc.getD 6 0
      let w15 := acc.getD 14 0
      let w16 := acc.getD 15 0
      shaExtend fuel (w32 (ssig1 w2 + w7 + ssig0 w15 + w16) :: acc)

structure ShaState where
  a : Nat
  b : Nat
  c : Nat
  d : Nat
  e : Nat
  f : Nat
  g : Nat
  h : Nat

def shaRound (st : ShaState) (k w : Nat) : ShaState :=
  let t1 := w32 (st.h + bsig1 st.e + ((st.e &&& st.f) ^^^ ((2^32 - 1 - st.e) &&& st.g)) + k + w)
  let t2 := w32 (bsig0 st.a + ((st.a &&& st.b) ^^^ (st.a &&& st.c) ^^^ (st.b &&& st.c)))
  ⟨w32 (t1 + t2), st.a, st.b, st.c, w32 (st.d + t1), st.e, st.f, st.g⟩

def shaCompress (hs : List Nat) (block : List Nat) : List Nat :=
  let ws := shaExtend 48 block.reverse
  let init : ShaState :=
    ⟨hs.getD 0 0, hs.getD 1 0, hs.getD 2 0, hs.getD 3 0,
     hs.getD 4 0, hs.getD 5 0, hs.getD 6 0, hs.getD 7 0⟩
  let fin := (List.zip shaK ws).foldl (fun st kw => shaRound st kw.1 kw.2) init
  [w32 (hs.getD 0 0 + fin.a), w32 (hs.getD 1 0 + fin.b),
   w32 (hs.getD 2 0 + fin.c), w32 (hs.getD 3 0 + fin.d),
   w32 (hs.getD 4 0 + fin.e), w32 (hs.getD 5 0 + fin.f),
   w32 (hs.getD 6 0 + fin.g), w32 (hs.getD 7 0 + fin.h)]

/-- Big-endian bytes of `n`, `k` bytes wide. -/
def beBytes : Nat → Nat → List Nat
  | 0, _ => []
  | k + 1, n => beBytes k (n / 256) ++ [n % 256]

/-- Pack big-endian bytes into 32-bit words, 4 at a time. -/
def bytesToWords : List Nat → List Nat
  | a :: b :: c :: d :: rest => (a * 16777216 + b * 65536 + c * 256 + d) :: bytesToWords rest
  | _ => []

/-- SHA-256 padding: `0x80`, zeros to 56 mod 64, 8-byte big-endian bit length. -/
def shaPad (msg : List Nat) : List Nat :=
  let r := msg.length % 64
  let zeros := (119 - r) % 64
  msg ++ 0x80 :: List.replicate zeros 0 ++ beBytes 8 (8 * msg.length)

def shaBlocksF : Nat → List Nat → List (List Nat)
  | 0, _ => []
  | _, [] => []
  | fuel + 1, b :: rest => (b :: rest).take 64 :: shaBlocksF fuel ((b :: rest).drop 64)

def shaBlocks (l : List Nat) : List (List Nat) := shaBlocksF l.length l

def wordBytes (w : Nat) : List Nat :=
  [w / 16777216 % 256, w / 65536 % 256, w / 256 % 256, w % 256]

/-- SHA-256 of a byte list, as 32 bytes. -/
def sha256 (msg : List Nat) : List Nat :=
  let hs := (shaBlocks (shaPad msg)).foldl (fun hs b => shaCompress hs (bytesToWords b)) shaH0
  hs.flatMap wordBytes

/-! ## UTF-8 (model of `TextEncoder.prototype.encode`) -/

def utf8Char (c : Char) : List Nat :=
  let n := c.toNat
  if n < 0x80 then [n]
  else if n < 0x800 then [0xC0 + n / 64, 0x80 + n % 64]
  else if n < 0x10000 then [0xE0 + n / 4096, 0x80 + n / 64 % 64, 0x80 + n % 64]
  else [0xF0 + n / 262144, 0x80 + n / 4096 % 64, 0x80 + n / 64 % 64, 0x80 + n % 64]

def utf8Encode (s : List Char) : List Nat := s.flatMap utf8Char

/-! ## Hex rendering (model of
`bytes.map(b => b.toString(16).padStart(2, "0")).join("")`) -/

def hexDigit (n : Nat) : Char :=
  if n < 10 then Char.ofNat (48 + n) else Char.ofNat (87 + n)

def byteHex (b : Nat) : List Char := [hexDigit (b / 16 % 16), hexDigit (b % 16)]

def bytesHex (bs : List Nat) : String := String.mk (bs.flatMap byteHex)

/-- `hashPassword` of `functions/api/auth.js`: UTF-8 encode, SHA-256,
lowercase-hex render. -/
def hashPassword (s : String) : String := bytesHex (sha256 (utf8Encode s.data))

/-! ## HMAC-SHA256 (model of `crypto.subtle.sign/verify("HMAC", …)`, RFC 2104) -/

def hmacSha256 (key msg : List Nat) : List Nat :=
  let k0 := if 64 < key.length then sha256 key else key
  let k := k0 ++ List.replicate (64 - k0.length) 0
  sha256 (k.map (fun b => b ^^^ 0x5c) ++ sha256 (k.map (fun b => b ^^^ 0x36) ++ msg))

/-! ## Base64 (model of `btoa` / forgiving-base64 `atob`) -/

def sextetChar (n : Nat) : Char :=
  if n < 26 then Char.ofNat (65 + n)
  else if n < 52 then Char.ofNat (97 + (n - 26))
  else if n < 62 then Char.ofNat (48 + (n - 52))
  else if n = 62 then '+' else '/'

def charSextet (c : Char) : Option Nat :=
  let n := c.toNat
  if 65 ≤ n ∧ n ≤ 90 then some (n - 65)
  else if 97 ≤ n ∧ n ≤ 122 then some (n - 97 + 26)
  else if 48 ≤ n ∧ n ≤ 57 then some (n - 48 + 52)
  else if c = '+' then some 62
  else if c = '/' then some 63
  else none

/-- Standard base64 encoding of a byte list, with `=` padding. -/
def encode3 : List Nat → List Char
  | x :: y :: z :: rest =>
      sextetChar (x / 4) :: sextetChar (x % 4 * 16 + y / 16) ::
      sextetChar (y % 16 * 4 + z / 64) :: sextetChar (z % 64) :: encode3 rest
  | [x, y] => [sextetChar (x / 4), sextetChar (x % 4 * 16 + y / 16),
               sextetChar (y % 16 * 4), '=']
  | [x] => [sextetChar (x / 4), sextetChar (x % 4 * 16), '=', '=']
  | [] => []

/-- Decode base64 sextets (padding already stripped), discarding trailing
bits of a final partial group, as forgiving-base64 does. -/
def decode4 : List Nat → List Nat
  | a :: b :: c :: d :: rest =>
      (a * 4 + b / 16) :: (b % 16 * 16 + c / 4) :: (c % 4 * 64 + d) :: decode4 rest
  | [a, b, c] => [a * 4 + b / 16, b % 16 * 16 + c / 4]
  | [a, b] => [a * 4 + b / 16]
  | _ => []

/-- `btoa`: demands every UTF-16 code unit be ≤ 255 (else it throws,
modelled as `none`), then base64-encodes the code units. -/
def btoaChars (s : List Char) : Option (List Char) :=
  if s.all (fun c => c.toNat < 256) then some (encode3 (s.map Char.toNat)) else none

def isB64Ws (c : Char) : Bool :=
  c = ' ' ∨ c = '\t' ∨ c = '\n' ∨ c = Char.ofNat 12 ∨ c = '\r'

/-- `atob` (WHATWG forgiving-base64 decode): strip ASCII whitespace; if the
length is a multiple of 4, drop up to two trailing `=`; throw (`none`) if
the length is then ≡ 1 (mod 4) or any character is outside the base64
alphabet; decode, discarding trailing bits. Output bytes stand for the
returned latin1 string's code units. -/
def atobChars (s : List Char) : Option (List Nat) :=
  let t := s.filter (fun c => !isB64Ws c)
  let t :=
    if t.length % 4 = 0 then
      match t.reverse with
      | [] => t
      | c1 :: r1 =>
          if c1 = '=' then
            match r1 with
            | c2 :: r2 => if c2 = '=' then r2.reverse else r1.reverse
            | [] => r1.reverse
          else t
    else t
  if t.length % 4 = 1 then none
  else (t.mapM charSextet).map decode4

def urlRepl (c : Char) : Char := if c = '+' then '-' else if c = '/' then '_' else c

def urlUnrepl (c : Char) : Char := if c = '-' then '+' else if c = '_' then '/' else c

/-- `.replace(/=+$/, "")`: drop the trailing run of `=`. -/
def stripEq (l : List Char) : List Char := (l.reverse.dropWhile (fun c => c = '=')).reverse

/-- base64url of bytes as the source composes it:
`btoa(String.fromCharCode(...bytes)).replace(/\+/g,"-").replace(/\//g,"_").replace(/=+$/,"")`. -/
def b64urlEncode (bs : List Nat) : List Char := stripEq ((encode3 bs).map urlRepl)

/-! ## JSON (model of `JSON.stringify` / `JSON.parse`)

The codec only ever serializes flat objects whose values are strings and
non-negative integers, so the embedded grammar is flat objects with
string or integer members; `JSON.parse` is modelled on that grammar
(nested values, fractions, exponents and literals are not produced by
this program and parse as `none`). -/

inductive JVal where
  | str : String → JVal
  | num : Int → JVal
deriving DecidableEq, Repr

/-- A parsed JSON object: members in textual order. -/
abbrev JObj := List (String × JVal)

/-- Property access on a parsed object; with duplicate keys the later
member wins, as in `JSON.parse`. -/
def jLookup (o : JObj) (k : String) : Option JVal :=
  (o.reverse.find? (fun m => m.1 = k)).map (fun m => m.2)

/-- `JSON.stringify` escaping of one character (ECMA-404 QuoteJSONString;
lone surrogates cannot occur in a Lean `Char`). -/
def jsonEscapeChar (c : Char) : List Char :=
  if c = '"' then ['\\', '"']
  else if c = '\\' then ['\\', '\\']
  else if c = Char.ofNat 8 then ['\\', 'b']
  else if c = Char.ofNat 12 then ['\\', 'f']
  else if c = '\n' then ['\\', 'n']
  else if c = '\r' then ['\\', 'r']
  else if c = '\t' then ['\\', 't']
  else if c.toNat < 32 then '\\' :: 'u' :: '0' :: '0' :: byteHex c.toNat
  else [c]

def jsonEscape (s : String) : List Char := s.data.flatMap jsonEscapeChar

/-- A JSON string literal: `"…"` with escaping. -/
def jstrQ (s : String) : List Char := '"' :: (jsonEscape s ++ ['"'])

/-- Decimal digits of `n`, as `String(n)` renders a non-negative integer. -/
def natDecAux : Nat → Nat → List Char
  | 0, _ => []
  | fuel + 1, n => if n = 0 then [] else natDecAux fuel (n / 10) ++ [Char.ofNat (48 + n % 10)]

def natDec (n : Nat) : List Char := if n = 0 then ['0'] else natDecAux n n

def isJsonWs (c : Char) : Bool := c = ' ' ∨ c = '\t' ∨ c = '\n' ∨ c = '\r'

def skipWs (s : List Char) : List Char := s.dropWhile isJsonWs

def hexVal (c : Char) : Option Nat :=
  let n := c.toNat
  if 48 ≤ n ∧ n ≤ 57 then some (n - 48)
  else if 97 ≤ n ∧ n ≤ 102 then some (n - 97 + 10)
  else if 65 ≤ n ∧ n ≤ 70 then some (n - 65 + 10)
  else none

/-- Parse the body of a JSON string literal (after the opening quote):
returns the content and the remainder after the closing quote. -/
def parseStrAux : List Char → Option (List Char × List Char)
  | [] => none
  | c :: rest =>
      if c = '"' then some ([], rest)
      else if c = '\\' then
        match rest with
        | [] => none
        | e :: r =>
            if e = '"' then (parseStrAux r).map (fun p => ('"' :: p.1, p.2))
            else if e = '\\' then (parseStrAux r).map (fun p => ('\\' :: p.1, p.2))
            else if e = '/' then (parseStrAux r).map (fun p => ('/' :: p.1, p.2))
            else if e = 'b' then (parseStrAux r).map (fun p => (Char.ofNat 8 :: p.1, p.2))
            else if e = 'f' then (parseStrAux r).map (fun p => (Char.ofNat 12 :: p.1, p.2))
            else if e = 'n' then (parseStrAux r).map (fun p => ('\n' :: p.1, p.2))
            else if e = 'r' then (parseStrAux r).map (fun p => ('\r' :: p.1, p.2))
            else if e = 't' then (parseStrAux r).map (fun p => ('\t' :: p.1, p.2))
            else if e = 'u' then
              match r with
              | a :: b :: c2 :: d :: r2 => do
                  let ha ← hexVal a
                  let hb ← hexVal b
                  let hc ← hexVal c2
                  let hd ← hexVal d
                  (parseStrAux r2).map
                    (fun p => (Char.ofNat (ha * 4096 + hb * 256 + hc * 16 + hd) :: p.1, p.2))
              | _ => none
            else none
      else if c.toNat < 32 then none
      else (parseStrAux rest).map (fun p => (c :: p.1, p.2))

def isDigit (c : Char) : Bool := 48 ≤ c.toNat ∧ c.toNat ≤ 57

def digitsVal (ds : List Char) : Nat := ds.foldl (fun a c => a * 10 + (c.toNat - 48)) 0

/-- Parse a run of decimal digits (at least one). -/
def parseNum (s : List Char) : Option (Nat × List Char) :=
  let ds := s.takeWhile isDigit
  if ds = [] then none else some (digitsVal ds, s.dropWhile isDigit)

def parseVal (s : List Char) : Option (JVal × List Char) :=
  match skipWs s with
  | [] => none
  | c :: rest =>
      if c = '"' then (parseStrAux rest).map (fun p => (JVal.str (String.mk p.1), p.2))
      else if c = '-' then (parseNum rest).map (fun p => (JVal.num (-(p.1 : Int)), p.2))
      else (parseNum (c :: rest)).map (fun p => (JVal.num (p.1 : Int), p.2))

/-- Parse a non-empty member list and the closing brace. -/
def parseMembers : Nat → List Char → Option (JObj × List Char)
  | 0, _ => none
  | fuel + 1, s =>
      match skipWs s with
      | [] => none
      | c0 :: rest =>
          if c0 = '"' then do
            let (k, r1) ← parseStrAux rest
            match skipWs r1 with
            | [] => none
            | c1 :: r3 =>
                if c1 = ':' then do
                  let (v, r4) ← parseVal r3
                  match skipWs r4 with
                  | [] => none
                  | c2 :: r6 =>
                      if c2 = ',' then
                        (parseMembers fuel r6).map (fun p => ((String.mk k, v) :: p.1, p.2))
                      else if c2 = Char.ofNat 125 then some ([(String.mk k, v)], r6)
                      else none
                else none
          else none

/-- `JSON.parse`, restricted to the flat object grammar above; `none`
models a thrown `SyntaxError`. -/
def parseJson (s : List Char) : Option JObj :=
  match skipWs s with
  | c :: rest =>
      if c = Char.ofNat 123 then
        match skipWs rest with
        | c2 :: r2 =>
            if c2 = Char.ofNat 125 then
              if skipWs r2 = [] then some [] else none
            else
              match parseMembers (rest.length + 1) rest with
              | some (ms, r) => if skipWs r = [] then some ms else none
              | none => none
        | [] => none
      else none
  | [] => none

/-! ## The signed session token codec of `functions/api/auth.js` -/

/-- `JSON.stringify({ alg: "HS256", typ: "JWT" })`. -/
def headerJson : List Char :=
  ("\x7b\"alg\":\"HS256\",\"typ\":\"JWT\"\x7d" : String).data

/-- `JSON.stringify({ id, email, exp })` for the payload the login handler
passes to `generateJWT`. -/
def payloadJson (id : Nat) (email : String) (exp : Nat) : List Char :=
  ("\x7b\"id\":" : String).data ++ natDec id ++
  (",\"email\":" : String).data ++ jstrQ email ++
  (",\"exp\":" : String).data ++ natDec exp ++ [Char.ofNat 125]

/-- The parsed form of that payload, as `JSON.parse` returns it. -/
def payloadObj (id : Nat) (email : String) (exp : Nat) : JObj :=
  [("id", JVal.num (id : Int)), ("email", JVal.str email), ("exp", JVal.num (exp : Int))]

/-- `generateJWT` of `functions/api/auth.js`, at the payload shape
`{ id, email, exp }` the handler calls it with. `none` models a thrown
exception: `btoa` on a code unit above 255, or the empty-secret
`importKey` failure. -/
def generateJWT (secret : String) (id : Nat) (email : String) (exp : Nat) :
    Option (List Char) :=
  match btoaChars headerJson, btoaChars (payloadJson id email exp) with
  | some hB, some pB =>
      if secret = "" then none
      else
        let headerEnc := stripEq (hB.map urlRepl)
        let payloadEnc := stripEq (pB.map urlRepl)
        let unsigned := headerEnc ++ '.' :: payloadEnc
        let sig := hmacSha256 (utf8Encode secret.data) (utf8Encode unsigned)
        some (unsigned ++ '.' :: b64urlEncode sig)
  | _, _ => none

/-- `token.split(".")` — JS split on a one-character separator, keeping
empty parts. -/
def splitOnDot : List Char → List (List Char)
  | [] => [[]]
  | c :: rest =>
      if c = '.' then [] :: splitOnDot rest
      else
        match splitOnDot rest with
        | p :: ps => (c :: p) :: ps
        | [] => [[c]]

/-- The expiry test `Date.now() / 1000 > payload.exp` (the division is
exact here: for an integer `exp`, `nowMs / 1000 > exp ↔ nowMs > 1000 *
exp`). A missing `exp` compares as `undefined`, which is `false`; a
string `exp` is coerced by `ToNumber`, modelled for plain integer
strings, `NaN` (incomparable) otherwise. -/
def jsExpired (nowMs : Nat) (v : Option JVal) : Bool :=
  match v with
  | none => false
  | some (JVal.num e) => decide ((nowMs : Int) > 1000 * e)
  | some (JVal.str s) =>
      match parseNum s.data with
      | some (n, rest) => if rest = [] then decide ((nowMs : Int) > 1000 * (n : Int)) else false
      | none => false

/-- `verifyJWT` of `functions/api/auth.js`. The destructuring
`const [h, p, s] = token.split(".")` takes the first three parts, ignoring
any further ones; every throw inside the `try` is caught and returns
`null`, modelled as `none`. -/
def verifyJWT (secret : String) (token : List Char) (nowMs : Nat) : Option JObj :=
  match splitOnDot token with
  | hB :: pB :: sB :: _ =>
      if hB = [] ∨ pB = [] ∨ sB = [] then none
      else if secret = "" then none
      else
        match atobChars (sB.map urlUnrepl) with
        | none => none
        | some sigBin =>
            let mac := hmacSha256 (utf8Encode secret.data)
              (utf8Encode (hB ++ '.' :: pB))
            if sigBin = mac then
              match atobChars (pB.map urlUnrepl) with
              | none => none
              | some payloadBytes =>
                  match parseJson (payloadBytes.map Char.ofNat) with
                  | none => none
                  | some payload =>
                      if jsExpired nowMs (jLookup payload "exp") then none
                      else some payload
            else none
  | _ => none

/-! ## The D1-backed auth handlers of `functions/api/auth.js`

The D1 `users` table is modelled as a list of rows; `SELECT … WHERE email
= ?` with `.first()` is the first row with that email, `INSERT` appends
(the autoincrement id is a parameter), `UPDATE … WHERE id = ?` maps over
rows, `DELETE … WHERE email = ?` filters with `meta.changes` the number
of removed rows. `Date.now()` and the `crypto.getRandomValues` bytes are
parameters. A NULL `password` column reads as `""` via `user.password ||
""`. -/

structure User where
  id : Nat
  name : String
  email : String
  password : String
  phone : Option String
  gender : Option String
  recovery : String
deriving DecidableEq, Repr

structure Resp where
  status : Nat
  body : String
deriving DecidableEq, Repr

/-- ECMAScript whitespace for `String.prototype.trim`, ASCII subset. -/
def isJsWs (c : Char) : Bool :=
  c = ' ' ∨ c = '\t' ∨ c = '\n' ∨ c = '\r' ∨ c = Char.ofNat 11 ∨ c = Char.ofNat 12

def jsTrim (s : String) : String :=
  String.mk (((s.data.dropWhile isJsWs).reverse.dropWhile isJsWs).reverse)

/-- `toLowerCase`, modelled on ASCII letters. -/
def asciiLower (c : Char) : Char :=
  if 65 ≤ c.toNat ∧ c.toNat ≤ 90 then Char.ofNat (c.toNat + 32) else c

def jsLower (s : String) : String := String.mk (s.data.map asciiLower)

/-- `(body.email || "").trim().toLowerCase()`. -/
def normEmail (s : String) : String := jsLower (jsTrim s)

def findUser (store : List User) (e : String) : Option User :=
  store.find? (fun u => u.email = e)

/-- JS truthiness of an optional string body field: `undefined` and `""`
are falsy. -/
def truthy : Option String → Bool
  | none => false
  | some s => s ≠ ""

def recoveryChars : List Char :=
  ("ABCDEFGHIJKLMNOPQRSTUVWXYZabcdefghijklmnopqrstuvwxyz0123456789" : String).data

/-- `makeRecoveryCode`: each random byte indexes the 62-char alphabet via
`b % 62`; the random bytes (12 of them at the call sites) are a
parameter. -/
def makeRecoveryCode (rand : List Nat) : String :=
  String.mk (rand.map (fun b => recoveryChars.getD (b % 62) 'A'))

/-- `JSON.stringify(x ?? null)` for the nullable `phone`/`gender` fields. -/
def jopt : Option String → List Char
  | none => ("null" : String).data
  | some s => jstrQ s

def invalidCredBody : String := "\x7b\"error\":\"Invalid credentials\"\x7d"

def d1LoginSuccessBody (token : List Char) (u : User) : String :=
  String.mk (("\x7b\"message\":\"Login successful\",\"token\":" : String).data ++
    jstrQ (String.mk token) ++ (",\"user\":\x7b\"id\":" : String).data ++ natDec u.id ++
    (",\"name\":" : String).data ++ jstrQ u.name ++
    (",\"email\":" : String).data ++ jstrQ u.email ++
    (",\"phone\":" : String).data ++ jopt u.phone ++
    (",\"gender\":" : String).data ++ jopt u.gender ++ ("\x7d\x7d" : String).data)

/-- The `login` action of `functions/api/auth.js` (lines 165–212): body →
response. `generateJWT = none` (a thrown exception) lands in the catch
block, a 500. -/
def d1Login (store : List User) (secret : String) (nowMs : Nat)
    (bodyEmail bodyPassword : String) : Resp :=
  let email := normEmail bodyEmail
  if email = "" ∨ bodyPassword = "" then
    ⟨400, "\x7b\"error\":\"Missing email or password\"\x7d"⟩
  else
    match findUser store email with
    | none => ⟨401, invalidCredBody⟩
    | some u =>
        let hashed := hashPassword bodyPassword
        let stored := u.password
        if hashed = stored ∨ bodyPassword = stored then
          let exp := nowMs / 1000 + 24 * 60 * 60
          match generateJWT secret u.id u.email exp with
          | some token => ⟨200, d1LoginSuccessBody token u⟩
          | none => ⟨500, "\x7b\"error\":\"Internal server error (login)\"\x7d"⟩
        else ⟨401, invalidCredBody⟩

def forgotSentBody : String :=
  "\x7b\"message\":\"If an account exists, instructions were sent.\"\x7d"

def forgotFollowBody : String :=
  "\x7b\"message\":\"If an account exists, follow the reset instructions you received.\"\x7d"

def resetOkBody (newCode : String) : String :=
  String.mk (("\x7b\"message\":\"Password reset successful\",\"recovery_code\":" : String).data ++
    jstrQ newCode ++ [Char.ofNat 125])

/-- The `forgot` action (lines 217–283): lookup-only or reset, returning
the response and the store afterwards. -/
def d1Forgot (store : List User) (rand : List Nat) (bodyEmail : String)
    (recoveryCode newPassword : Option String) : Resp × List User :=
  let email := normEmail bodyEmail
  if email = "" then (⟨400, "\x7b\"error\":\"Missing email\"\x7d"⟩, store)
  else
    match findUser store email with
    | none => (⟨200, forgotSentBody⟩, store)
    | some u =>
        if truthy recoveryCode && truthy newPassword then
          let providedHash := hashPassword (recoveryCode.getD "")
          if providedHash ≠ u.recovery then
            (⟨401, "\x7b\"error\":\"Invalid recovery code\"\x7d"⟩, store)
          else
            let newHashed := hashPassword (newPassword.getD "")
            let newCode := makeRecoveryCode rand
            let newCodeHashed := hashPassword newCode
            (⟨200, resetOkBody newCode⟩,
             store.map (fun v =>
               if v.id = u.id then
                 { v with password := newHashed, recovery := newCodeHashed }
               else v))
        else (⟨200, forgotFollowBody⟩, store)

/-- The `delete` action (lines 288–318). -/
def d1Delete (store : List User) (bodyEmail : String) : Resp × List User :=
  let email := normEmail bodyEmail
  if email = "" then (⟨400, "\x7b\"error\":\"Missing email\"\x7d"⟩, store)
  else
    let remaining := store.filter (fun u => u.email ≠ email)
    if remaining.length < store.length then
      (⟨200, "\x7b\"success\":true,\"message\":\"Account deleted\"\x7d"⟩, remaining)
    else
      (⟨404, "\x7b\"success\":false,\"error\":\"User not found\"\x7d"⟩, store)

def signupOkBody (code : String) : String :=
  String.mk (("\x7b\"message\":\"Signup successful\",\"recovery_code\":" : String).data ++
    jstrQ code ++ [Char.ofNat 125])

/-- The `signup` action (lines 119–163); `newId` is the D1 autoincrement
id of the inserted row. -/
def d1Signup (store : List User) (rand : List Nat) (newId : Nat)
    (bodyName bodyEmail bodyPassword : String) (phone gender : Option String) :
    Resp × List User :=
  let name := jsTrim bodyName
  let email := normEmail bodyEmail
  if name = "" ∨ email = "" ∨ bodyPassword = "" then
    (⟨400, "\x7b\"error\":\"Missing required fields: name, email, password\"\x7d"⟩, store)
  else
    match findUser store email with
    | some _ => (⟨409, "\x7b\"error\":\"User already exists\"\x7d"⟩, store)
    | none =>
        let hashedPassword := hashPassword bodyPassword
        let recoveryCode := makeRecoveryCode rand
        let recoveryHashed := hashPassword recoveryCode
        (⟨201, signupOkBody recoveryCode⟩,
         store ++ [⟨newId, name, email, hashedPassword, phone, gender, recoveryHashed⟩])

/-! ## The KV-backed variant (`src/index.js` second part, a.k.a.
`src/auth.js`): `handleSignUp`, `handleLogin`, `createJWT`

The `USERS` KV namespace is a list of key/value pairs; `get` is lookup by
key, `put` appends. The uuid salt and uuid userId are parameters. -/

structure KVUser where
  userId : String
  email : String
  hash : String
  salt : String
  createdAt : Nat
deriving DecidableEq, Repr

/-- The variant's `hashPassword(password, salt)`: SHA-256 of
`password + salt`, hex. -/
def kvHashPassword (password salt : String) : String :=
  bytesHex (sha256 (utf8Encode (password ++ salt).data))

def kvPayloadJson (userId email : String) (exp iat : Nat) : List Char :=
  ("\x7b\"userId\":" : String).data ++ jstrQ userId ++
  (",\"email\":" : String).data ++ jstrQ email ++
  (",\"exp\":" : String).data ++ natDec exp ++
  (",\"iat\":" : String).data ++ natDec iat ++ [Char.ofNat 125]

/-- `.replace(/=/g, "")` as the KV variant strips padding. -/
def stripAllEq (l : List Char) : List Char := l.filter (fun c => !(c = '='))

/-- `createJWT` of the KV variant: claims `{ userId, email, exp, iat }`
with a 7-day expiry. -/
def kvCreateJWT (secret userId email : String) (nowMs : Nat) : Option (List Char) :=
  let exp := nowMs / 1000 + 7 * 24 * 60 * 60
  let iat := nowMs / 1000
  match btoaChars headerJson, btoaChars (kvPayloadJson userId email exp iat) with
  | some hB, some pB =>
      if secret = "" then none
      else
        let encodedHeader := stripAllEq (hB.map urlRepl)
        let encodedClaims := stripAllEq (pB.map urlRepl)
        let dataToSign := encodedHeader ++ '.' :: encodedClaims
        let sig := hmacSha256 (utf8Encode secret.data) (utf8Encode dataToSign)
        some (dataToSign ++ '.' :: stripAllEq ((encode3 sig).map urlRepl))
  | _, _ => none

/-- `handleSignUp` of the KV variant (no email normalization; rejects
passwords shorter than 8 UTF-16 units before touching the store). -/
def kvSignUp (store : List (String × KVUser)) (uuidSalt uuidId : String)
    (nowMs : Nat) (email password : String) : Resp × List (String × KVUser) :=
  if email = "" ∨ password = "" ∨ password.length < 8 then
    (⟨400, "\x7b\"success\":false,\"message\":\"Invalid email or password (min 8 characters).\"\x7d"⟩,
     store)
  else
    match store.find? (fun kv => kv.1 = email) with
    | some _ => (⟨409, "\x7b\"success\":false,\"message\":\"User already exists.\"\x7d"⟩, store)
    | none =>
        let hashed := kvHashPassword password uuidSalt
        (⟨201, "\x7b\"success\":true,\"message\":\"Registration successful.\"\x7d"⟩,
         store ++ [(email, ⟨uuidId, email, hashed, uuidSalt, nowMs⟩)])

def kvInvalidCredBody : String := "\x7b\"message\":\"Invalid credentials.\"\x7d"

def kvLoginOkBody (token : List Char) : String :=
  String.mk (("\x7b\"token\":" : String).data ++ jstrQ (String.mk token) ++
    (",\"message\":\"Login successful.\"\x7d" : String).data)

/-- `handleLogin` of the KV variant: raw (unnormalized) email as the KV
key. -/
def kvLogin (store : List (String × KVUser)) (secret : String) (nowMs : Nat)
    (email password : String) : Resp :=
  if email = "" ∨ password = "" then
    ⟨400, "\x7b\"message\":\"Email and password are required.\"\x7d"⟩
  else
    match store.find? (fun kv => kv.1 = email) with
    | none => ⟨401, kvInvalidCredBody⟩
    | some kv =>
        let candidateHash := kvHashPassword password kv.2.salt
        if candidateHash ≠ kv.2.hash then ⟨401, kvInvalidCredBody⟩
        else
          match kvCreateJWT secret kv.2.userId kv.2.email nowMs with
          | some token => ⟨200, kvLoginOkBody token⟩
          | none => ⟨500, "\x7b\"message\":\"Internal Server Error during login.\"\x7d"⟩

/-! ## Derived token shapes used by the theorems -/

/-- The encoded-token shape `generateJWT` produces on success. -/
def b64urlOfLatin1 (s : List Char) : List Char :=
  stripEq ((encode3 (s.map Char.toNat)).map urlRepl)

def jwtUnsigned (id : Nat) (email : String) (exp : Nat) : List Char :=
  b64urlOfLatin1 headerJson ++ '.' :: b64urlOfLatin1 (payloadJson id email exp)

def jwtToken (secret : String) (id : Nat) (email : String) (exp : Nat) : List Char :=
  jwtUnsigned id email exp ++ '.' ::
    b64urlEncode (hmacSha256 (utf8Encode secret.data) (utf8Encode (jwtUnsigned id email exp)))

/-- The unpadded base64 sextet characters of a byte list (what remains of
`encode3` after stripping the `=` padding). -/
def encN : List Nat → List Char
  | x :: y :: z :: rest =>
      sextetChar (x / 4) :: sextetChar (x % 4 * 16 + y / 16) ::
      sextetChar (y % 16 * 4 + z / 64) :: sextetChar (z % 64) :: encN rest
  | [x, y] => [sextetChar (x / 4), sextetChar (x % 4 * 16 + y / 16), sextetChar (y % 16 * 4)]
  | [x] => [sextetChar (x / 4), sextetChar (x % 4 * 16)]
  | [] => []

/-- The sextet values of a byte list. -/
def sexts : List Nat → List Nat
  | x :: y :: z :: rest =>
      x / 4 :: (x % 4 * 16 + y / 16) :: (y % 16 * 4 + z / 64) :: z % 64 :: sexts rest
  | [x, y] => [x / 4, x % 4 * 16 + y / 16, y % 16 * 4]
  | [x] => [x / 4, x % 4 * 16]
  | [] => []

def tamperSig (secret : String) (id : Nat) (email : String) (exp : Nat) (i : Nat) (c : Char) :
    List Char :=
  jwtUnsigned id email exp ++ '.' ::
    (b64urlEncode (hmacSha256 (utf8Encode secret.data)
      (utf8Encode (jwtUnsigned id email exp)))).set i c

def sigSext (secret : String) (id : Nat) (email : String) (exp : Nat) (i : Nat) : Nat :=
  (sexts (hmacSha256 (utf8Encode secret.data)
    (utf8Encode (jwtUnsigned id email exp)))).getD i 0

/-- A well-formed token for `{ id: 1, email: "a@b.c", exp: 5 }` under
secret `"sek"`. -/
def c2Token : List Char := (generateJWT "sek" 1 "a@b.c" 5).getD []

/-- A correctly signed token (secret `"sek"`) whose payload `{"id":1}`
has no `exp` claim. -/
def c2NoExpToken : List Char :=
  let unsigned :=
    b64urlOfLatin1 headerJson ++ '.' ::
      b64urlOfLatin1 (("\x7b\"id\":1\x7d" : String).data)
  unsigned ++ '.' ::
    b64urlEncode (hmacSha256 (utf8Encode ("sek" : String).data) (utf8Encode unsigned))


/-! ## Helper lemmas -/

set_option maxRecDepth 10000 in
theorem sha256_abc :
    hashPassword "abc" =
      "ba7816bf8f01cfea414140de5dae2223b00361a396177a9cb410ff61f20015ad" := by
  decide

theorem toNat_ofNat_lt {n : Nat} (h : n < 0xd800) : (Char.ofNat n).toNat = n := by
  unfold Char.ofNat
  rw [dif_pos (Or.inl h)]
  rfl

theorem natDecAux_digits {fuel n : Nat} :
    ∀ c ∈ natDecAux fuel n, 48 ≤ c.toNat ∧ c.toNat ≤ 57 := by
  induction fuel generalizing n with
  | zero => intro c hc; simp [natDecAux] at hc
  | succ f ih =>
      intro c hc
      unfold natDecAux at hc
      by_cases hn : n = 0
      · simp [hn] at hc
      · rw [if_neg hn] at hc
        rcases List.mem_append.mp hc with h1 | h2
        · exact ih c h1
        · have : c = Char.ofNat (48 + n % 10) := by simpa using h2
          subst this
          have hb : 48 + n % 10 < 0xd800 := by omega
          rw [toNat_ofNat_lt hb]
          omega

theorem natDec_digits {n : Nat} : ∀ c ∈ natDec n, 48 ≤ c.toNat ∧ c.toNat ≤ 57 := by
  intro c hc
  unfold natDec at hc
  by_cases hn : n = 0
  · simp [hn] at hc; subst hc; decide
  · rw [if_neg hn] at hc; exact natDecAux_digits c hc

theorem hexDigit_lt {n : Nat} (h : n < 16) : (hexDigit n).toNat < 256 := by
  unfold hexDigit
  by_cases h10 : n < 10
  · rw [if_pos h10, toNat_ofNat_lt (by omega)]; omega
  · rw [if_neg h10, toNat_ofNat_lt (by omega)]; omega

theorem jsonEscapeChar_latin1 {c : Char} (h : c.toNat < 256) :
    ∀ d ∈ jsonEscapeChar c, d.toNat < 256 := by
  intro d hd
  unfold jsonEscapeChar at hd
  split_ifs at hd <;>
    simp only [byteHex, List.mem_cons, List.not_mem_nil, or_false] at hd
  · rcases hd with rfl | rfl <;> decide
  · rcases hd with rfl | rfl <;> decide
  · rcases hd with rfl | rfl <;> decide
  · rcases hd with rfl | rfl <;> decide
  · rcases hd with rfl | rfl <;> decide
  · rcases hd with rfl | rfl <;> decide
  · rcases hd with rfl | rfl <;> decide
  · rcases hd with rfl | rfl | rfl | rfl | rfl | rfl <;>
      first
      | decide
      | exact hexDigit_lt (Nat.mod_lt _ (by omega))
  · subst hd; exact h

theorem jstrQ_latin1 {s : String} (h : ∀ c ∈ s.data, c.toNat < 256) :
    ∀ d ∈ jstrQ s, d.toNat < 256 := by
  intro d hd
  unfold jstrQ at hd
  simp only [List.mem_cons, List.mem_append, List.not_mem_nil, or_false] at hd
  rcases hd with rfl | h2 | rfl
  · decide
  · unfold jsonEscape at h2
    rcases List.mem_flatMap.mp h2 with ⟨c, hc, hdc⟩
    exact jsonEscapeChar_latin1 (h c hc) d hdc
  · decide

theorem payloadJson_latin1 {id : Nat} {email : String} {exp : Nat}
    (h : ∀ c ∈ email.data, c.toNat < 256) :
    ∀ c ∈ payloadJson id email exp, c.toNat < 256 := by
  intro c hc
  unfold payloadJson at hc
  simp only [List.append_assoc, List.mem_append] at hc
  rcases hc with h1 | h1 | h1 | h1 | h1 | h1 | h1
  · revert c; decide
  · have := natDec_digits c h1; omega
  · revert c; decide
  · exact jstrQ_latin1 h c h1
  · revert c; decide
  · have := natDec_digits c h1; omega
  · have : c = Char.ofNat 125 := by simpa using h1
    subst this; decide

theorem btoaChars_eq_some {s : List Char} (h : ∀ c ∈ s, c.toNat < 256) :
    btoaChars s = some (encode3 (s.map Char.toNat)) := by
  unfold btoaChars
  rw [if_pos]
  simp only [List.all_eq_true, decide_eq_true_eq]
  exact h

theorem generateJWT_eq_some {secret : String} {id : Nat} {email : String} {exp : Nat}
    (hsec : secret ≠ "") (hem : ∀ c ∈ email.data, c.toNat < 256) :
    generateJWT secret id email exp = some (jwtToken secret id email exp) := by
  unfold generateJWT
  rw [btoaChars_eq_some (by decide), btoaChars_eq_some (payloadJson_latin1 hem)]
  simp only [if_neg hsec]
  rfl

/-! ## Base64 round-trip infrastructure -/

theorem sextet_facts : ∀ n, n < 64 →
    charSextet (sextetChar n) = some n ∧
    urlUnrepl (urlRepl (sextetChar n)) = sextetChar n ∧
    isB64Ws (sextetChar n) = false ∧ sextetChar n ≠ '.' ∧ sextetChar n ≠ '=' ∧
    urlRepl (sextetChar n) ≠ '.' := by decide

theorem sextetChar_ne_eq (n : Nat) : sextetChar n ≠ '=' := by
  unfold sextetChar
  split_ifs with h1 h2 h3 h4 <;> intro h <;>
    first
    | (have h9 := congrArg Char.toNat h
       rw [toNat_ofNat_lt (by omega)] at h9
       rw [show Char.toNat '=' = 61 from rfl] at h9
       omega)
    | exact absurd h (by decide)

theorem dropWhileEq_eq_self {l : List Char} (h : ∀ c ∈ l, c ≠ '=') :
    l.dropWhile (fun c => c = '=') = l := by
  cases l with
  | nil => rfl
  | cons c t =>
      rw [List.dropWhile_cons]
      rw [if_neg]
      simp only [decide_eq_true_eq]
      exact h c (List.mem_cons_self c t)

theorem stripEq_append {a b : List Char} (h : ∀ c ∈ a, c ≠ '=') :
    stripEq (a ++ b) = a ++ stripEq b := by
  unfold stripEq
  rw [List.reverse_append, List.dropWhile_append]
  by_cases he : (List.dropWhile (fun c => c = '=') b.reverse).isEmpty = true
  · rw [if_pos he]
    rw [List.isEmpty_iff] at he
    rw [he]
    rw [dropWhileEq_eq_self (by intro c hc; exact h c (List.mem_reverse.mp hc))]
    simp
  · rw [if_neg he]
    rw [List.reverse_append, List.reverse_reverse]

theorem stripEq_encode3 : ∀ bs : List Nat, stripEq (encode3 bs) = encN bs
  | [] => by decide
  | [x] => by
      show stripEq ([sextetChar (x / 4), sextetChar (x % 4 * 16)] ++ ['=', '=']) = _
      rw [stripEq_append]
      · show _ ++ ([] : List Char) = _
        simp [encN]
      · intro c hc
        simp only [List.mem_cons, List.not_mem_nil, or_false] at hc
        rcases hc with rfl | rfl <;> exact sextetChar_ne_eq _
  | [x, y] => by
      show stripEq ([sextetChar (x / 4), sextetChar (x % 4 * 16 + y / 16),
        sextetChar (y % 16 * 4)] ++ ['=']) = _
      rw [stripEq_append]
      · show _ ++ ([] : List Char) = _
        simp [encN]
      · intro c hc
        simp only [List.mem_cons, List.not_mem_nil, or_false] at hc
        rcases hc with rfl | rfl | rfl <;> exact sextetChar_ne_eq _
  | x :: y :: z :: (rest : List Nat) => by
      show stripEq ([sextetChar (x / 4), sextetChar (x % 4 * 16 + y / 16),
        sextetChar (y % 16 * 4 + z / 64), sextetChar (z % 64)] ++ encode3 rest) = _
      rw [stripEq_append]
      · rw [stripEq_encode3 rest]
        rfl
      · intro c hc
        simp only [List.mem_cons, List.not_mem_nil, or_false] at hc
        rcases hc with rfl | rfl | rfl | rfl <;> exact sextetChar_ne_eq _

theorem urlRepl_eq_iff (c : Char) : (urlRepl c = '=') ↔ (c = '=') := by
  unfold urlRepl
  split_ifs with h1 h2
  · subst h1; decide
  · subst h2; decide
  · exact Iff.rfl

theorem stripEq_map_urlRepl (l : List Char) :
    stripEq (l.map urlRepl) = (stripEq l).map urlRepl := by
  unfold stripEq
  have hco : ((fun c : Char => decide (c = '=')) ∘ urlRepl) =
      (fun c : Char => decide (c = '=')) := by
    funext c
    simp only [Function.comp]
    rw [decide_eq_decide]
    exact urlRepl_eq_iff c
  conv_lhs => rw [← List.map_reverse, List.dropWhile_map, ← List.map_reverse]
  rw [hco]

theorem b64urlEncode_eq (bs : List Nat) : b64urlEncode bs = (encN bs).map urlRepl := by
  unfold b64urlEncode
  rw [stripEq_map_urlRepl, stripEq_encode3]

theorem encN_sextets : ∀ (bs : List Nat), (∀ b ∈ bs, b < 256) →
    ∀ c ∈ encN bs, ∃ n, n < 64 ∧ c = sextetChar n
  | [], _ => by intro c hc; cases hc
  | [x], h => by
      intro c hc
      have hx := h x (by simp)
      simp only [encN, List.mem_cons, List.not_mem_nil, or_false] at hc
      rcases hc with rfl | rfl
      · exact ⟨x / 4, by omega, rfl⟩
      · exact ⟨x % 4 * 16, by omega, rfl⟩
  | [x, y], h => by
      intro c hc
      have hx := h x (by simp)
      have hy := h y (by simp)
      simp only [encN, List.mem_cons, List.not_mem_nil, or_false] at hc
      rcases hc with rfl | rfl | rfl
      · exact ⟨x / 4, by omega, rfl⟩
      · exact ⟨x % 4 * 16 + y / 16, by omega, rfl⟩
      · exact ⟨y % 16 * 4, by omega, rfl⟩
  | x :: y :: z :: (rest : List Nat), h => by
      intro c hc
      have hx := h x (by simp)
      have hy := h y (by simp)
      have hz := h z (by simp)
      simp only [encN, List.mem_cons] at hc
      rcases hc with rfl | rfl | rfl | rfl | hc
      · exact ⟨x / 4, by omega, rfl⟩
      · exact ⟨x % 4 * 16 + y / 16, by omega, rfl⟩
      · exact ⟨y % 16 * 4 + z / 64, by omega, rfl⟩
      · exact ⟨z % 64, by omega, rfl⟩
      · exact encN_sextets rest (fun b hb => h b (by simp [hb])) c hc

theorem encN_length_mod : ∀ bs : List Nat, (encN bs).length % 4 ≠ 1
  | [] => by decide
  | [x] => by
      simp only [encN, List.length_cons, List.length_nil]
      omega
  | [x, y] => by
      simp only [encN, List.length_cons, List.length_nil]
      omega
  | x :: y :: z :: (rest : List Nat) => by
      have := encN_length_mod rest
      simp only [encN, List.length_cons]
      omega

theorem mapM_charSextet_encN : ∀ bs : List Nat, (∀ b ∈ bs, b < 256) →
    (encN bs).mapM charSextet = some (sexts bs)
  | [], _ => by decide
  | [x], h => by
      have hx := h x (by simp)
      show (List.mapM charSextet
        [sextetChar (x / 4), sextetChar (x % 4 * 16)]) = some [x / 4, x % 4 * 16]
      rw [List.mapM_cons, List.mapM_cons,
        (sextet_facts (x / 4) (by omega)).1, (sextet_facts (x % 4 * 16) (by omega)).1]
      rfl
  | [x, y], h => by
      have hx := h x (by simp)
      have hy := h y (by simp)
      show (List.mapM charSextet [sextetChar (x / 4), sextetChar (x % 4 * 16 + y / 16),
        sextetChar (y % 16 * 4)]) = some [x / 4, x % 4 * 16 + y / 16, y % 16 * 4]
      rw [List.mapM_cons, List.mapM_cons, List.mapM_cons,
        (sextet_facts (x / 4) (by omega)).1,
        (sextet_facts (x % 4 * 16 + y / 16) (by omega)).1,
        (sextet_facts (y % 16 * 4) (by omega)).1]
      rfl
  | x :: y :: z :: (rest : List Nat), h => by
      have hx := h x (by simp)
      have hy := h y (by simp)
      have hz := h z (by simp)
      show (List.mapM charSextet (sextetChar (x / 4) :: sextetChar (x % 4 * 16 + y / 16) ::
        sextetChar (y % 16 * 4 + z / 64) :: sextetChar (z % 64) :: encN rest)) = _
      rw [List.mapM_cons, List.mapM_cons, List.mapM_cons, List.mapM_cons,
        (sextet_facts (x / 4) (by omega)).1,
        (sextet_facts (x % 4 * 16 + y / 16) (by omega)).1,
        (sextet_facts (y % 16 * 4 + z / 64) (by omega)).1,
        (sextet_facts (z % 64) (by omega)).1,
        mapM_charSextet_encN rest (fun b hb => h b (by simp [hb]))]
      rfl

theorem decode4_sexts : ∀ bs : List Nat, (∀ b ∈ bs, b < 256) → decode4 (sexts bs) = bs
  | [], _ => by decide
  | [x], h => by
      have hx := h x (by simp)
      show decode4 [x / 4, x % 4 * 16] = [x]
      show [x / 4 * 4 + x % 4 * 16 / 16] = [x]
      congr 1
      omega
  | [x, y], h => by
      have hx := h x (by simp)
      have hy := h y (by simp)
      show [x / 4 * 4 + (x % 4 * 16 + y / 16) / 16,
        (x % 4 * 16 + y / 16) % 16 * 16 + y % 16 * 4 / 4] = [x, y]
      congr 1
      · omega
      · congr 1
        omega
  | x :: y :: z :: (rest : List Nat), h => by
      have hx := h x (by simp)
      have hy := h y (by simp)
      have hz := h z (by simp)
      show (x / 4 * 4 + (x % 4 * 16 + y / 16) / 16) ::
        ((x % 4 * 16 + y / 16) % 16 * 16 + (y % 16 * 4 + z / 64) / 4) ::
        ((y % 16 * 4 + z / 64) % 4 * 64 + z % 64) :: decode4 (sexts rest) = x :: y :: z :: rest
      rw [decode4_sexts rest (fun b hb => h b (by simp [hb]))]
      congr 1
      · omega
      congr 1
      · omega
      congr 1
      omega

theorem atob_encN {bs : List Nat} (h : ∀ b ∈ bs, b < 256) :
    atobChars (encN bs) = some (decode4 (sexts bs)) := by
  have hchar := encN_sextets bs h
  unfold atobChars
  dsimp only
  have hfilter : (encN bs).filter (fun c => !isB64Ws c) = encN bs := by
    rw [List.filter_eq_self]
    intro c hc
    obtain ⟨n, hn, rfl⟩ := hchar c hc
    rw [(sextet_facts n hn).2.2.1]
    rfl
  rw [hfilter]
  have hne : ∀ c ∈ encN bs, c ≠ '=' := by
    intro c hc
    obtain ⟨n, hn, rfl⟩ := hchar c hc
    exact (sextet_facts n hn).2.2.2.2.1
  have hstrip : (if (encN bs).length % 4 = 0 then
      match (encN bs).reverse with
      | [] => encN bs
      | c1 :: r1 =>
          if c1 = '=' then
            match r1 with
            | c2 :: r2 => if c2 = '=' then r2.reverse else r1.reverse
            | [] => r1.reverse
          else encN bs
    else encN bs) = encN bs := by
    split
    · rcases hr : (encN bs).reverse with _ | ⟨c1, r1⟩
      · rfl
      · dsimp only
        rw [if_neg]
        exact hne c1 (by rw [← List.mem_reverse, hr]; exact List.mem_cons_self c1 r1)
    · rfl
  rw [hstrip, if_neg (encN_length_mod bs), mapM_charSextet_encN bs h]
  rfl

/-- Decoding inverts the `btoa`-then-url-replace-then-strip encoding: the
`atob`-side of the codec recovers exactly the encoded bytes. -/
theorem atob_b64urlEncode {bs : List Nat} (h : ∀ b ∈ bs, b < 256) :
    atobChars ((b64urlEncode bs).map urlUnrepl) = some bs := by
  rw [b64urlEncode_eq, List.map_map]
  have hmap : (encN bs).map (urlUnrepl ∘ urlRepl) = encN bs := by
    have : ∀ c ∈ encN bs, (urlUnrepl ∘ urlRepl) c = id c := by
      intro c hc
      obtain ⟨n, hn, rfl⟩ := encN_sextets bs h c hc
      exact (sextet_facts n hn).2.1
    rw [List.map_congr_left this, List.map_id]
  rw [hmap, atob_encN h, decode4_sexts bs h]

/-! ## JSON print/parse round-trip infrastructure -/

theorem isJsonWs_false {c : Char} (h : 32 < c.toNat) : isJsonWs c = false := by
  unfold isJsonWs
  apply decide_eq_false
  rintro (rfl | rfl | rfl | rfl) <;> simp at h

theorem skipWs_cons_of {c : Char} {r : List Char} (h : isJsonWs c = false) :
    skipWs (c :: r) = c :: r := by
  unfold skipWs
  rw [List.dropWhile_cons, if_neg]
  simp [h]

theorem natDec_ne_nil (n : Nat) : natDec n ≠ [] := by
  unfold natDec
  split_ifs with h
  · simp
  · obtain ⟨m, rfl⟩ := Nat.exists_eq_succ_of_ne_zero h
    unfold natDecAux
    rw [if_neg h]
    simp

theorem isDigit_natDec {n : Nat} : ∀ c ∈ natDec n, isDigit c = true := by
  intro c hc
  have := natDec_digits c hc
  unfold isDigit
  simp only [decide_eq_true_eq]
  exact this

theorem foldl_natDecAux : ∀ (fuel n acc : Nat), n ≤ fuel →
    List.foldl (fun a c => a * 10 + (c.toNat - 48)) acc (natDecAux fuel n) =
      acc * 10 ^ (natDecAux fuel n).length + n
  | 0, n, acc => by
      intro h
      unfold natDecAux
      simp
      omega
  | fuel + 1, n, acc => by
      intro h
      unfold natDecAux
      by_cases hn : n = 0
      · rw [if_pos hn]; simp; omega
      · rw [if_neg hn]
        rw [List.foldl_append, List.length_append]
        have hdiv : n / 10 ≤ fuel := by
          have hlt : n / 10 < n := Nat.div_lt_self (Nat.pos_of_ne_zero hn) (by omega)
          omega
        rw [foldl_natDecAux fuel (n / 10) acc hdiv]
        simp only [List.foldl_cons, List.foldl_nil, List.length_cons, List.length_nil]
        rw [toNat_ofNat_lt (by omega)]
        have h10 : 10 ^ (0 + 1) = 10 := by norm_num
        rw [pow_succ]
        have := Nat.div_add_mod n 10
        ring_nf
        omega

theorem digitsVal_natDec (n : Nat) : digitsVal (natDec n) = n := by
  unfold digitsVal natDec
  split_ifs with h
  · subst h; decide
  · rw [foldl_natDecAux n n 0 le_rfl]
    simp

theorem takeWhile_all_append {p : Char → Bool} :
    ∀ (A : List Char) (c : Char) (B : List Char), (∀ a ∈ A, p a = true) → p c = false →
    (A ++ c :: B).takeWhile p = A ∧ (A ++ c :: B).dropWhile p = c :: B
  | [], c, B => by
      intro _ hc
      constructor
      · rw [List.nil_append, List.takeWhile_cons, if_neg (by simp [hc])]
      · rw [List.nil_append, List.dropWhile_cons, if_neg (by simp [hc])]
  | a :: A, c, B => by
      intro hA hc
      have ha := hA a (List.mem_cons_self a A)
      obtain ⟨ht, hd⟩ := takeWhile_all_append A c B (fun x hx => hA x (List.mem_cons_of_mem a hx)) hc
      constructor
      · rw [List.cons_append, List.takeWhile_cons, if_pos (by simp [ha]), ht]
      · rw [List.cons_append, List.dropWhile_cons, if_pos (by simp [ha]), hd]

theorem parseNum_natDec {n : Nat} {c : Char} {B : List Char} (hc : isDigit c = false) :
    parseNum (natDec n ++ c :: B) = some (n, c :: B) := by
  unfold parseNum
  obtain ⟨ht, hd⟩ := takeWhile_all_append (natDec n) c B isDigit_natDec hc
  rw [ht, hd, if_neg (natDec_ne_nil n), digitsVal_natDec]

theorem natDec_head_cons (n : Nat) : ∃ d ds, natDec n = d :: ds := by
  rcases h : natDec n with _ | ⟨d, ds⟩
  · exact absurd h (natDec_ne_nil n)
  · exact ⟨d, ds, rfl⟩

theorem skipWs_natDec_append (n : Nat) (B : List Char) :
    skipWs (natDec n ++ B) = natDec n ++ B := by
  obtain ⟨d, ds, hd⟩ := natDec_head_cons n
  have hdig := natDec_digits d (by rw [hd]; exact List.mem_cons_self d ds)
  rw [hd, List.cons_append]
  exact skipWs_cons_of (isJsonWs_false (by omega))

theorem parseVal_num {n : Nat} {c : Char} {B : List Char} (hc : isDigit c = false) :
    parseVal (natDec n ++ c :: B) = some (JVal.num (n : Int), c :: B) := by
  unfold parseVal
  rw [skipWs_natDec_append]
  obtain ⟨d, ds, hd⟩ := natDec_head_cons n
  have hdig := natDec_digits d (by rw [hd]; exact List.mem_cons_self d ds)
  rw [hd, List.cons_append]
  dsimp only
  rw [if_neg (by intro he; rw [he, show Char.toNat '"' = 34 from rfl] at hdig; omega)]
  rw [if_neg (by intro he; rw [he, show Char.toNat '-' = 45 from rfl] at hdig; omega)]
  rw [← List.cons_append, ← hd, parseNum_natDec hc]
  rfl

theorem hexVal_hexDigit : ∀ m, m < 16 → hexVal (hexDigit m) = some m := by decide

theorem parseStrAux_jsonEscape (cs : List Char) (r : List Char) :
    parseStrAux (cs.flatMap jsonEscapeChar ++ '"' :: r) = some (cs, r) := by
  induction cs with
  | nil =>
      simp only [List.flatMap_nil, List.nil_append]
      rw [parseStrAux.eq_def]
      dsimp only
      rw [if_pos rfl]
  | cons c cs ih =>
      rw [List.flatMap_cons, List.append_assoc]
      rw [jsonEscapeChar]
      by_cases h1 : c = '"'
      · rw [if_pos h1]
        subst h1
        simp only [List.cons_append, List.nil_append]
        rw [parseStrAux.eq_def]
        dsimp only
        rw [if_neg (by decide), if_pos rfl]
        try dsimp only
        rw [if_pos rfl, ih]
        rfl
      · rw [if_neg h1]
        by_cases h2 : c = '\\'
        · rw [if_pos h2]
          subst h2
          simp only [List.cons_append, List.nil_append]
          rw [parseStrAux.eq_def]
          dsimp only
          rw [if_neg (by decide), if_pos rfl]
          try dsimp only
          rw [if_neg (by decide), if_pos rfl, ih]
          rfl
        · rw [if_neg h2]
          by_cases h3 : c = Char.ofNat 8
          · rw [if_pos h3]
            simp only [List.cons_append, List.nil_append]
            rw [parseStrAux.eq_def]
            dsimp only
            rw [if_neg (by decide), if_pos rfl]
            try dsimp only
            rw [if_neg (by decide), if_neg (by decide), if_neg (by decide), if_pos rfl, ih]
            rw [h3]
            rfl
          · rw [if_neg h3]
            by_cases h4 : c = Char.ofNat 12
            · rw [if_pos h4]
              simp only [List.cons_append, List.nil_append]
              rw [parseStrAux.eq_def]
              dsimp only
              rw [if_neg (by decide), if_pos rfl]
              try dsimp only
              rw [if_neg (by decide), if_neg (by decide), if_neg (by decide),
                if_neg (by decide), if_pos rfl, ih]
              rw [h4]
              rfl
            · rw [if_neg h4]
              by_cases h5 : c = '\n'
              · rw [if_pos h5]
                simp only [List.cons_append, List.nil_append]
                rw [parseStrAux.eq_def]
                dsimp only
                rw [if_neg (by decide), if_pos rfl]
                try dsimp only
                rw [if_neg (by decide), if_neg (by decide), if_neg (by decide),
                  if_neg (by decide), if_neg (by decide), if_pos rfl, ih]
                rw [h5]
                rfl
              · rw [if_neg h5]
                by_cases h6 : c = '\r'
                · rw [if_pos h6]
                  simp only [List.cons_append, List.nil_append]
                  rw [parseStrAux.eq_def]
                  dsimp only
                  rw [if_neg (by decide), if_pos rfl]
                  try dsimp only
                  rw [if_neg (by decide), if_neg (by decide), if_neg (by decide),
                    if_neg (by decide), if_neg (by decide), if_neg (by decide), if_pos rfl, ih]
                  rw [h6]
                  rfl
                · rw [if_neg h6]
                  by_cases h7 : c = '\t'
                  · rw [if_pos h7]
                    simp only [List.cons_append, List.nil_append]
                    rw [parseStrAux.eq_def]
                    dsimp only
                    rw [if_neg (by decide), if_pos rfl]
                    try dsimp only
                    rw [if_neg (by decide), if_neg (by decide), if_neg (by decide),
                      if_neg (by decide), if_neg (by decide), if_neg (by decide),
                      if_neg (by decide), if_pos rfl, ih]
                    rw [h7]
                    rfl
                  · rw [if_neg h7]
                    by_cases h8 : c.toNat < 32
                    · rw [if_pos h8]
                      simp only [byteHex, List.cons_append, List.nil_append]
                      rw [parseStrAux.eq_def]
                      dsimp only
                      rw [if_neg (by decide), if_pos rfl]
                      try dsimp only
                      rw [if_neg (by decide), if_neg (by decide), if_neg (by decide),
                        if_neg (by decide), if_neg (by decide), if_neg (by decide),
                        if_neg (by decide), if_neg (by decide), if_pos rfl]
                      try dsimp only
                      rw [show hexVal '0' = some 0 from rfl,
                        hexVal_hexDigit (c.toNat / 16 % 16) (by omega),
                        hexVal_hexDigit (c.toNat % 16) (by omega)]
                      have hcode : 0 * 4096 + 0 * 256 + c.toNat / 16 % 16 * 16 + c.toNat % 16 =
                          c.toNat := by omega
                      show Option.map (fun p : List Char × List Char =>
                          (Char.ofNat (0 * 4096 + 0 * 256 + c.toNat / 16 % 16 * 16 +
                            c.toNat % 16) :: p.1, p.2))
                        (parseStrAux (cs.flatMap jsonEscapeChar ++ '"' :: r)) =
                        some (c :: cs, r)
                      rw [ih]
                      show some (Char.ofNat (0 * 4096 + 0 * 256 + c.toNat / 16 % 16 * 16 +
                        c.toNat % 16) :: cs, r) = some (c :: cs, r)
                      rw [hcode, Char.ofNat_toNat]
                    · rw [if_neg h8]
                      simp only [List.singleton_append]
                      rw [parseStrAux.eq_def]
                      dsimp only
                      rw [if_neg h1, if_neg h2, if_neg h8, ih]
                      rfl

theorem string_mk_data (s : String) : String.mk s.data = s := rfl

theorem parseVal_str (email : String) (B : List Char) :
    parseVal (jstrQ email ++ B) = some (JVal.str email, B) := by
  unfold jstrQ jsonEscape
  rw [List.cons_append, List.append_assoc]
  unfold parseVal
  rw [skipWs_cons_of (by decide)]
  dsimp only
  rw [if_pos rfl, show (['"'] : List Char) ++ B = '"' :: B from rfl,
    parseStrAux_jsonEscape email.data B]
  rfl

theorem parseMembers_exp (f : Nat) (exp : Nat) :
    parseMembers (f + 1)
      ('"' :: 'e' :: 'x' :: 'p' :: '"' :: ':' :: (natDec exp ++ ['\x7d'])) =
      some ([("exp", JVal.num (exp : Int))], []) := by
  rw [parseMembers.eq_def]
  dsimp only
  rw [skipWs_cons_of (by decide)]
  dsimp only
  rw [if_pos rfl]
  rw [show ('e' :: 'x' :: 'p' :: '"' :: ':' :: (natDec exp ++ ['\x7d'])) =
    (['e', 'x', 'p'].flatMap jsonEscapeChar ++ '"' :: (':' :: (natDec exp ++ ['\x7d'])))
    from rfl]
  rw [parseStrAux_jsonEscape]
  rw [Option.bind_eq_bind, Option.some_bind]
  rw [skipWs_cons_of (by decide)]
  dsimp only
  rw [if_pos rfl]
  rw [show natDec exp ++ ['\x7d'] = natDec exp ++ '\x7d' :: [] from rfl]
  rw [parseVal_num (by decide)]
  rw [Option.bind_eq_bind, Option.some_bind]
  rw [skipWs_cons_of (by decide)]
  dsimp only
  rw [if_neg (by decide), if_pos rfl]

theorem parseMembers_email (f : Nat) (email : String) (exp : Nat) :
    parseMembers (f + 2)
      ('"' :: 'e' :: 'm' :: 'a' :: 'i' :: 'l' :: '"' :: ':' ::
        (jstrQ email ++ ',' :: '"' :: 'e' :: 'x' :: 'p' :: '"' :: ':' ::
          (natDec exp ++ ['\x7d']))) =
      some ([("email", JVal.str email), ("exp", JVal.num (exp : Int))], []) := by
  rw [show f + 2 = (f + 1) + 1 from rfl, parseMembers.eq_def]
  dsimp only
  rw [skipWs_cons_of (by decide)]
  dsimp only
  rw [if_pos rfl]
  rw [show ('e' :: 'm' :: 'a' :: 'i' :: 'l' :: '"' :: ':' ::
      (jstrQ email ++ ',' :: '"' :: 'e' :: 'x' :: 'p' :: '"' :: ':' ::
        (natDec exp ++ ['\x7d']))) =
    (['e', 'm', 'a', 'i', 'l'].flatMap jsonEscapeChar ++ '"' ::
      (':' :: (jstrQ email ++ ',' :: '"' :: 'e' :: 'x' :: 'p' :: '"' :: ':' ::
        (natDec exp ++ ['\x7d'])))) from rfl]
  rw [parseStrAux_jsonEscape]
  rw [Option.bind_eq_bind, Option.some_bind]
  rw [skipWs_cons_of (by decide)]
  dsimp only
  rw [if_pos rfl]
  rw [show (jstrQ email ++ ',' :: '"' :: 'e' :: 'x' :: 'p' :: '"' :: ':' ::
      (natDec exp ++ ['\x7d'])) =
    (jstrQ email ++ (',' :: '"' :: 'e' :: 'x' :: 'p' :: '"' :: ':' ::
      (natDec exp ++ ['\x7d']))) from rfl]
  rw [parseVal_str]
  rw [Option.bind_eq_bind, Option.some_bind]
  rw [skipWs_cons_of (by decide)]
  dsimp only
  rw [if_pos rfl]
  rw [parseMembers_exp f exp]
  rfl

theorem parseMembers_payload (f : Nat) (id : Nat) (email : String) (exp : Nat) :
    parseMembers (f + 3)
      ('"' :: 'i' :: 'd' :: '"' :: ':' ::
        (natDec id ++ ',' :: '"' :: 'e' :: 'm' :: 'a' :: 'i' :: 'l' :: '"' :: ':' ::
          (jstrQ email ++ ',' :: '"' :: 'e' :: 'x' :: 'p' :: '"' :: ':' ::
            (natDec exp ++ ['\x7d'])))) =
      some (payloadObj id email exp, []) := by
  rw [show f + 3 = (f + 2) + 1 from rfl, parseMembers.eq_def]
  dsimp only
  rw [skipWs_cons_of (by decide)]
  dsimp only
  rw [if_pos rfl]
  rw [show ('i' :: 'd' :: '"' :: ':' ::
      (natDec id ++ ',' :: '"' :: 'e' :: 'm' :: 'a' :: 'i' :: 'l' :: '"' :: ':' ::
        (jstrQ email ++ ',' :: '"' :: 'e' :: 'x' :: 'p' :: '"' :: ':' ::
          (natDec exp ++ ['\x7d'])))) =
    (['i', 'd'].flatMap jsonEscapeChar ++ '"' ::
      (':' :: (natDec id ++ ',' :: '"' :: 'e' :: 'm' :: 'a' :: 'i' :: 'l' :: '"' :: ':' ::
        (jstrQ email ++ ',' :: '"' :: 'e' :: 'x' :: 'p' :: '"' :: ':' ::
          (natDec exp ++ ['\x7d']))))) from rfl]
  rw [parseStrAux_jsonEscape]
  rw [Option.bind_eq_bind, Option.some_bind]
  rw [skipWs_cons_of (by decide)]
  dsimp only
  rw [if_pos rfl]
  rw [parseVal_num (by decide)]
  rw [Option.bind_eq_bind, Option.some_bind]
  rw [skipWs_cons_of (by decide)]
  dsimp only
  rw [if_pos rfl]
  rw [parseMembers_email f email exp]
  rfl

theorem parseJson_payloadJson (id : Nat) (email : String) (exp : Nat) :
    parseJson (payloadJson id email exp) = some (payloadObj id email exp) := by
  have hpj : payloadJson id email exp =
      '\x7b' :: '"' :: 'i' :: 'd' :: '"' :: ':' ::
        (natDec id ++ ',' :: '"' :: 'e' :: 'm' :: 'a' :: 'i' :: 'l' :: '"' :: ':' ::
          (jstrQ email ++ ',' :: '"' :: 'e' :: 'x' :: 'p' :: '"' :: ':' ::
            (natDec exp ++ ['\x7d']))) := by
    unfold payloadJson
    simp [List.append_assoc]
  rw [hpj]
  unfold parseJson
  rw [skipWs_cons_of (by decide)]
  dsimp only
  rw [if_pos rfl]
  rw [skipWs_cons_of (by decide)]
  dsimp only
  rw [if_neg (by decide)]
  have hlen : ('"' :: 'i' :: 'd' :: '"' :: ':' ::
      (natDec id ++ ',' :: '"' :: 'e' :: 'm' :: 'a' :: 'i' :: 'l' :: '"' :: ':' ::
        (jstrQ email ++ ',' :: '"' :: 'e' :: 'x' :: 'p' :: '"' :: ':' ::
          (natDec exp ++ ['\x7d'])))).length + 1 =
      ((natDec id ++ ',' :: '"' :: 'e' :: 'm' :: 'a' :: 'i' :: 'l' :: '"' :: ':' ::
        (jstrQ email ++ ',' :: '"' :: 'e' :: 'x' :: 'p' :: '"' :: ':' ::
          (natDec exp ++ ['\x7d']))).length + 3) + 3 := by
    simp only [List.length_cons]
    try omega
  rw [hlen, parseMembers_payload]
  rfl

theorem splitOnDot_dotfree : ∀ (A : List Char), '.' ∉ A → splitOnDot A = [A]
  | [], _ => rfl
  | c :: A, h => by
      have hc : c ≠ '.' := fun he => h (he ▸ List.mem_cons_self c A)
      unfold splitOnDot
      rw [if_neg hc, splitOnDot_dotfree A (fun hm => h (List.mem_cons_of_mem c hm))]

theorem splitOnDot_append : ∀ (A R : List Char), '.' ∉ A →
    splitOnDot (A ++ '.' :: R) = A :: splitOnDot R
  | [], R, _ => by
      rw [List.nil_append, splitOnDot.eq_def]
      dsimp only
      rw [if_pos rfl]
  | c :: A, R, h => by
      have hc : c ≠ '.' := fun he => h (he ▸ List.mem_cons_self c A)
      rw [List.cons_append, splitOnDot.eq_def]
      dsimp only
      rw [if_neg hc, splitOnDot_append A R (fun hm => h (List.mem_cons_of_mem c hm))]

theorem b64urlEncode_dotfree {bs : List Nat} (h : ∀ b ∈ bs, b < 256) :
    '.' ∉ b64urlEncode bs := by
  rw [b64urlEncode_eq]
  intro hm
  rcases List.mem_map.mp hm with ⟨c, hc, he⟩
  obtain ⟨n, hn, rfl⟩ := encN_sextets bs h c hc
  exact (sextet_facts n hn).2.2.2.2.2 he

theorem encN_ne_nil : ∀ bs : List Nat, bs ≠ [] → encN bs ≠ []
  | [], h => absurd rfl h
  | [_], _ => by simp [encN]
  | [_, _], _ => by simp [encN]
  | _ :: _ :: _ :: _, _ => by simp [encN]

theorem b64urlEncode_ne_nil {bs : List Nat} (h : bs ≠ []) : b64urlEncode bs ≠ [] := by
  rw [b64urlEncode_eq]
  simp only [ne_eq, List.map_eq_nil_iff]
  exact encN_ne_nil bs h

theorem shaCompress_length (hs b : List Nat) : (shaCompress hs b).length = 8 := by
  simp [shaCompress]

theorem foldl_shaCompress_length :
    ∀ (blocks : List (List Nat)) (hs : List Nat), hs.length = 8 →
    (blocks.foldl (fun hs b => shaCompress hs (bytesToWords b)) hs).length = 8
  | [], hs, h => h
  | b :: bl, hs, _ => by
      rw [List.foldl_cons]
      exact foldl_shaCompress_length bl _ (shaCompress_length hs (bytesToWords b))

theorem flatMap_wordBytes_length : ∀ l : List Nat, (l.flatMap wordBytes).length = 4 * l.length
  | [] => rfl
  | w :: l => by
      rw [List.flatMap_cons, List.length_append, flatMap_wordBytes_length l]
      simp [wordBytes]
      omega

theorem sha256_length (m : List Nat) : (sha256 m).length = 32 := by
  unfold sha256
  rw [flatMap_wordBytes_length, foldl_shaCompress_length _ _ (by decide)]

theorem sha256_lt (m : List Nat) : ∀ b ∈ sha256 m, b < 256 := by
  intro b hb
  unfold sha256 at hb
  rcases List.mem_flatMap.mp hb with ⟨w, _, hw⟩
  simp only [wordBytes, List.mem_cons, List.not_mem_nil, or_false] at hw
  rcases hw with rfl | rfl | rfl | rfl <;> omega

theorem hmacSha256_lt (key msg : List Nat) : ∀ b ∈ hmacSha256 key msg, b < 256 := by
  unfold hmacSha256
  exact sha256_lt _

theorem hmacSha256_ne_nil (key msg : List Nat) : hmacSha256 key msg ≠ [] := by
  intro h
  have := sha256_length (((if 64 < key.length then sha256 key else key) ++
    List.replicate (64 - (if 64 < key.length then sha256 key else key).length) 0).map
      (fun b => b ^^^ 0x5c) ++
    sha256 ((((if 64 < key.length then sha256 key else key) ++
      List.replicate (64 - (if 64 < key.length then sha256 key else key).length) 0).map
        (fun b => b ^^^ 0x36)) ++ msg))
  rw [show hmacSha256 key msg = sha256 _ from rfl] at h
  rw [h] at this
  simp at this

theorem payloadJson_eq (id : Nat) (email : String) (exp : Nat) :
    payloadJson id email exp =
      '\x7b' :: '"' :: 'i' :: 'd' :: '"' :: ':' ::
        (natDec id ++ ',' :: '"' :: 'e' :: 'm' :: 'a' :: 'i' :: 'l' :: '"' :: ':' ::
          (jstrQ email ++ ',' :: '"' :: 'e' :: 'x' :: 'p' :: '"' :: ':' ::
            (natDec exp ++ ['\x7d']))) := by
  unfold payloadJson
  simp [List.append_assoc]

theorem payloadJson_ne_nil (id : Nat) (email : String) (exp : Nat) :
    payloadJson id email exp ≠ [] := by
  rw [payloadJson_eq]
  simp

theorem b64urlOfLatin1_eq (s : List Char) :
    b64urlOfLatin1 s = b64urlEncode (s.map Char.toNat) := rfl

theorem encN_eq_map : ∀ bs : List Nat, encN bs = (sexts bs).map sextetChar
  | [] => rfl
  | [x] => rfl
  | [x, y] => rfl
  | x :: y :: z :: (rest : List Nat) => by
      show _ :: _ :: _ :: _ :: encN rest = _ :: _ :: _ :: _ :: (sexts rest).map sextetChar
      rw [encN_eq_map rest]

theorem sexts_lt : ∀ bs : List Nat, (∀ b ∈ bs, b < 256) → ∀ s ∈ sexts bs, s < 64
  | [], _ => by intro s hs; cases hs
  | [x], h => by
      have hx := h x (by simp)
      intro s hs
      simp only [sexts, List.mem_cons, List.not_mem_nil, or_false] at hs
      rcases hs with rfl | rfl <;> omega
  | [x, y], h => by
      have hx := h x (by simp)
      have hy := h y (by simp)
      intro s hs
      simp only [sexts, List.mem_cons, List.not_mem_nil, or_false] at hs
      rcases hs with rfl | rfl | rfl <;> omega
  | x :: y :: z :: (rest : List Nat), h => by
      have hx := h x (by simp)
      have hy := h y (by simp)
      have hz := h z (by simp)
      intro s hs
      simp only [sexts, List.mem_cons] at hs
      rcases hs with rfl | rfl | rfl | rfl | hs
      · omega
      · omega
      · omega
      · omega
      · exact sexts_lt rest (fun b hb => h b (by simp [hb])) s hs

theorem sexts_length : ∀ bs : List Nat, (sexts bs).length =
    4 * (bs.length / 3) + (if bs.length % 3 = 0 then 0 else bs.length % 3 + 1)
  | [] => by simp [sexts]
  | [x] => by
      show ([x / 4, x % 4 * 16]).length = _
      simp
  | [x, y] => by
      show ([x / 4, x % 4 * 16 + y / 16, y % 16 * 4]).length = _
      simp
  | x :: y :: z :: (rest : List Nat) => by
      have ih := sexts_length rest
      show (x / 4 :: (x % 4 * 16 + y / 16) :: (y % 16 * 4 + z / 64) :: z % 64 ::
        sexts rest).length = _
      simp only [List.length_cons]
      rw [ih]
      split_ifs <;> omega

theorem decode4_length : ∀ ss : List Nat, (decode4 ss).length =
    3 * (ss.length / 4) + (if ss.length % 4 ≥ 2 then ss.length % 4 - 1 else 0)
  | [] => by simp [decode4]
  | [a] => by
      show ([] : List Nat).length = _
      simp
  | [a, b] => by
      show ([a * 4 + b / 16]).length = _
      simp
  | [a, b, c] => by
      show ([a * 4 + b / 16, b % 16 * 16 + c / 4]).length = _
      simp
  | a :: b :: c :: d :: (rest : List Nat) => by
      have ih := decode4_length rest
      show ((a * 4 + b / 16) :: (b % 16 * 16 + c / 4) :: (c % 4 * 64 + d) ::
        decode4 rest).length = _
      simp only [List.length_cons]
      rw [ih]
      split_ifs <;> omega

theorem mapM_charSextet_some_length :
    ∀ l : List Char, (∀ c ∈ l, (charSextet c).isSome) →
    ∃ ys, l.mapM charSextet = some ys ∧ ys.length = l.length ∧
      (∀ i, ys.getD i 0 = (charSextet (l.getD i 'A')).getD 0)
  | [], _ => ⟨[], rfl, rfl, fun i => by cases i <;> rfl⟩
  | c :: l, h => by
      obtain ⟨v, hv⟩ := Option.isSome_iff_exists.mp (h c (List.mem_cons_self c l))
      obtain ⟨ys, hys, hlen, hget⟩ :=
        mapM_charSextet_some_length l (fun x hx => h x (List.mem_cons_of_mem c hx))
      refine ⟨v :: ys, ?_, by simp [hlen], ?_⟩
      · rw [List.mapM_cons, hv, hys]
        rfl
      · intro i
        cases i with
        | zero => simp [hv]
        | succ j => simpa using hget j

theorem hmacSha256_length (key msg : List Nat) : (hmacSha256 key msg).length = 32 := by
  unfold hmacSha256
  exact sha256_length _

theorem b64url_map_urlUnrepl {bs : List Nat} (h : ∀ b ∈ bs, b < 256) :
    (b64urlEncode bs).map urlUnrepl = encN bs := by
  rw [b64urlEncode_eq, List.map_map]
  have hmap : ∀ c ∈ encN bs, (urlUnrepl ∘ urlRepl) c = id c := by
    intro c hc
    obtain ⟨n, hn, rfl⟩ := encN_sextets bs h c hc
    exact (sextet_facts n hn).2.1
  rw [List.map_congr_left hmap, List.map_id]

theorem charSextet_some_facts : ∀ {c : Char} {v : Nat}, charSextet c = some v →
    v < 64 ∧ isB64Ws c = false ∧ c ≠ '=' ∧ c ≠ '.' := by
  intro c v h
  rw [charSextet.eq_def] at h
  dsimp only at h
  split_ifs at h with h1 h2 h3 h4 h5
  · rw [Option.some.injEq] at h
    subst h
    refine ⟨by omega, ?_, ?_, ?_⟩
    · unfold isB64Ws
      apply decide_eq_false
      rintro (rfl | rfl | rfl | rfl | rfl) <;> exact absurd h1 (by decide)
    · rintro rfl; exact absurd h1 (by decide)
    · rintro rfl; exact absurd h1 (by decide)
  · rw [Option.some.injEq] at h
    subst h
    refine ⟨by omega, ?_, ?_, ?_⟩
    · unfold isB64Ws
      apply decide_eq_false
      rintro (rfl | rfl | rfl | rfl | rfl) <;> exact absurd h2 (by decide)
    · rintro rfl; exact absurd h2 (by decide)
    · rintro rfl; exact absurd h2 (by decide)
  · rw [Option.some.injEq] at h
    subst h
    refine ⟨by omega, ?_, ?_, ?_⟩
    · unfold isB64Ws
      apply decide_eq_false
      rintro (rfl | rfl | rfl | rfl | rfl) <;> exact absurd h3 (by decide)
    · rintro rfl; exact absurd h3 (by decide)
    · rintro rfl; exact absurd h3 (by decide)
  · subst h4
    rw [Option.some.injEq] at h
    subst h
    exact ⟨by omega, by decide, by decide, by decide⟩
  · subst h5
    rw [Option.some.injEq] at h
    subst h
    exact ⟨by omega, by decide, by decide, by decide⟩

theorem mapM_charSextet_none_of_mem : ∀ {l : List Char} {u : Char}, u ∈ l →
    charSextet u = none → l.mapM charSextet = none := by
  intro l
  induction l with
  | nil => intro u hu; cases hu
  | cons c t ih =>
      intro u hu h0
      rcases List.mem_cons.mp hu with rfl | hmem
      · rw [List.mapM_cons, h0]
        rfl
      · rcases hc : charSextet c with _ | w
        · rw [List.mapM_cons, hc]
          rfl
        · rw [List.mapM_cons, hc]
          show (List.mapM charSextet t >>= fun xs => pure (w :: xs)) = none
          rw [ih hmem h0]
          rfl

theorem mapM_charSextet_set : ∀ (l : List Char) (ys : List Nat) (i : Nat) (u : Char) (v : Nat),
    l.mapM charSextet = some ys → charSextet u = some v →
    (l.set i u).mapM charSextet = some (ys.set i v)
  | [], ys, i, u, v, h, hv => by
      simp only [List.mapM_nil, Option.pure_def, Option.some.injEq] at h
      subst h
      rfl
  | c :: t, ys, i, u, v, h, hv => by
      rw [List.mapM_cons] at h
      rcases hc : charSextet c with _ | w
      · rw [hc] at h
        exact absurd h (by simp)
      · rw [hc] at h
        rcases ht : List.mapM charSextet t with _ | zs
        · rw [ht] at h
          exact absurd h (by simp)
        · rw [ht] at h
          simp only [Option.bind_eq_bind, Option.some_bind, Option.pure_def,
            Option.some.injEq] at h
          subst h
          cases i with
          | zero =>
              show List.mapM charSextet (u :: t) = _
              rw [List.mapM_cons, hv, ht]
              rfl
          | succ j =>
              show List.mapM charSextet (c :: t.set j u) = _
              rw [List.mapM_cons, hc, mapM_charSextet_set t zs j u v ht hv]
              rfl

theorem atobChars_not1 {l t : List Char} (hf : l.filter (fun c => !isB64Ws c) = t)
    (hlen : t.length % 4 = 2 ∨ t.length % 4 = 3) :
    atobChars l = (t.mapM charSextet).map decode4 := by
  unfold atobChars
  dsimp only
  rw [hf]
  rw [if_neg (show ¬(t.length % 4 = 0) from by omega)]
  rw [if_neg (show ¬(t.length % 4 = 1) from by omega)]

theorem atobChars_nows {l : List Char} (hws : ∀ c ∈ l, isB64Ws c = false)
    (hne : ∀ c ∈ l, c ≠ '=') :
    atobChars l = if l.length % 4 = 1 then none else (l.mapM charSextet).map decode4 := by
  unfold atobChars
  dsimp only
  have hfilter : l.filter (fun c => !isB64Ws c) = l := by
    rw [List.filter_eq_self]
    intro c hc
    rw [hws c hc]
    rfl
  rw [hfilter]
  by_cases h0 : l.length % 4 = 0
  · rw [if_pos h0]
    rcases hr : l.reverse with _ | ⟨c1, r1⟩
    · rfl
    · dsimp only
      rw [if_neg (hne c1 (by rw [← List.mem_reverse, hr]; exact List.mem_cons_self c1 r1))]
  · rw [if_neg h0]

theorem decode4_set_iff : ∀ (s : List Nat) (i v : Nat), s.length % 4 = 3 → i < s.length →
    v < 64 →
    (decode4 (s.set i v) = decode4 s ↔
      (v = s.getD i 0 ∨ (i = s.length - 1 ∧ v / 4 = s.getD i 0 / 4)))
  | [], i, v, h3, hi, hv => by
      exfalso
      simp only [List.length_nil] at h3
      omega
  | [a], i, v, h3, hi, hv => by
      exfalso
      simp only [List.length_cons, List.length_nil] at h3
      omega
  | [a, b], i, v, h3, hi, hv => by
      exfalso
      simp only [List.length_cons, List.length_nil] at h3
      omega
  | [a, b, c], i, v, h3, hi, hv => by
      rcases i with _ | _ | _ | j
      · show [v * 4 + b / 16, b % 16 * 16 + c / 4] = [a * 4 + b / 16, b % 16 * 16 + c / 4] ↔
          (v = a ∨ (0 = 2 ∧ v / 4 = a / 4))
        simp only [List.cons.injEq, and_true, true_and]
        omega
      · show [a * 4 + v / 16, v % 16 * 16 + c / 4] = [a * 4 + b / 16, b % 16 * 16 + c / 4] ↔
          (v = b ∨ (1 = 2 ∧ v / 4 = b / 4))
        simp only [List.cons.injEq, and_true, true_and]
        omega
      · show [a * 4 + b / 16, b % 16 * 16 + v / 4] = [a * 4 + b / 16, b % 16 * 16 + c / 4] ↔
          (v = c ∨ (2 = 2 ∧ v / 4 = c / 4))
        simp only [List.cons.injEq, and_true, true_and]
        omega
      · exact absurd hi (by simp only [List.length_cons, List.length_nil]; omega)
  | a :: b :: c :: d :: (rest : List Nat), i, v, h3, hi, hv => by
      have hrest3 : rest.length % 4 = 3 := by
        simp only [List.length_cons] at h3
        omega
      rcases i with _ | _ | _ | _ | j
      · show (v * 4 + b / 16) :: (b % 16 * 16 + c / 4) :: (c % 4 * 64 + d) :: decode4 rest =
            (a * 4 + b / 16) :: (b % 16 * 16 + c / 4) :: (c % 4 * 64 + d) :: decode4 rest ↔
          (v = a ∨ (0 = rest.length + 1 + 1 + 1 + 1 - 1 ∧ v / 4 = a / 4))
        simp only [List.cons.injEq, and_true, true_and]
        omega
      · show (a * 4 + v / 16) :: (v % 16 * 16 + c / 4) :: (c % 4 * 64 + d) :: decode4 rest =
            (a * 4 + b / 16) :: (b % 16 * 16 + c / 4) :: (c % 4 * 64 + d) :: decode4 rest ↔
          (v = b ∨ (1 = rest.length + 1 + 1 + 1 + 1 - 1 ∧ v / 4 = b / 4))
        simp only [List.cons.injEq, and_true, true_and]
        omega
      · show (a * 4 + b / 16) :: (b % 16 * 16 + v / 4) :: (v % 4 * 64 + d) :: decode4 rest =
            (a * 4 + b / 16) :: (b % 16 * 16 + c / 4) :: (c % 4 * 64 + d) :: decode4 rest ↔
          (v = c ∨ (2 = rest.length + 1 + 1 + 1 + 1 - 1 ∧ v / 4 = c / 4))
        simp only [List.cons.injEq, and_true, true_and]
        omega
      · show (a * 4 + b / 16) :: (b % 16 * 16 + c / 4) :: (c % 4 * 64 + v) :: decode4 rest =
            (a * 4 + b / 16) :: (b % 16 * 16 + c / 4) :: (c % 4 * 64 + d) :: decode4 rest ↔
          (v = d ∨ (3 = rest.length + 1 + 1 + 1 + 1 - 1 ∧ v / 4 = d / 4))
        simp only [List.cons.injEq, and_true, true_and]
        omega
      · have hj : j < rest.length := by
          simp only [List.length_cons] at hi
          omega
        have ih := decode4_set_iff rest j v hrest3 hj hv
        show (a * 4 + b / 16) :: (b % 16 * 16 + c / 4) :: (c % 4 * 64 + d) ::
              decode4 (rest.set j v) =
            (a * 4 + b / 16) :: (b % 16 * 16 + c / 4) :: (c % 4 * 64 + d) :: decode4 rest ↔
          (v = List.getD rest j 0 ∨ (j + 1 + 1 + 1 + 1 = rest.length + 1 + 1 + 1 + 1 - 1 ∧
            v / 4 = List.getD rest j 0 / 4))
        simp only [List.cons.injEq, and_true, true_and]
        rw [ih]
        constructor
        · rintro (h | ⟨h1, h2⟩)
          · exact Or.inl h
          · exact Or.inr ⟨by omega, h2⟩
        · rintro (h | ⟨h1, h2⟩)
          · exact Or.inl h
          · exact Or.inr ⟨by omega, h2⟩

theorem verify_with_sig (secret : String) (id : Nat) (email : String) (exp nowMs : Nat)
    (hsec : secret ≠ "") (hem : ∀ ch ∈ email.data, ch.toNat < 256)
    (hfut : nowMs < 1000 * exp) (sB : List Char) (s0 : List Char) (tl : List (List Char))
    (hs : splitOnDot sB = s0 :: tl) :
    verifyJWT secret (jwtUnsigned id email exp ++ '.' :: sB) nowMs =
      (if s0 = [] then none
       else
         match atobChars (s0.map urlUnrepl) with
         | none => none
         | some sigBin =>
             if sigBin = hmacSha256 (utf8Encode secret.data)
                 (utf8Encode (jwtUnsigned id email exp)) then
               some (payloadObj id email exp)
             else none) := by
  have hpl : ∀ b ∈ (payloadJson id email exp).map Char.toNat, b < 256 := by
    intro b hb
    rcases List.mem_map.mp hb with ⟨c, hc, rfl⟩
    exact payloadJson_latin1 hem c hc
  have hhl : ∀ b ∈ (headerJson).map Char.toNat, b < 256 := by decide
  unfold jwtUnsigned
  rw [b64urlOfLatin1_eq, b64urlOfLatin1_eq]
  have hsplit : splitOnDot ((b64urlEncode (headerJson.map Char.toNat) ++
      '.' :: b64urlEncode ((payloadJson id email exp).map Char.toNat)) ++ '.' :: sB) =
      b64urlEncode (headerJson.map Char.toNat) ::
      b64urlEncode ((payloadJson id email exp).map Char.toNat) :: s0 :: tl := by
    rw [List.append_assoc, List.cons_append]
    rw [splitOnDot_append _ _ (b64urlEncode_dotfree hhl)]
    rw [splitOnDot_append _ _ (b64urlEncode_dotfree hpl)]
    rw [hs]
  unfold verifyJWT
  rw [hsplit]
  dsimp only
  by_cases h0 : s0 = []
  · subst h0
    rw [if_pos (Or.inr (Or.inr rfl)), if_pos rfl]
  · rw [if_neg (by
      rintro (he | he | he)
      · exact b64urlEncode_ne_nil (by decide) he
      · refine b64urlEncode_ne_nil ?_ he
        simp only [ne_eq, List.map_eq_nil_iff]
        exact payloadJson_ne_nil id email exp
      · exact h0 he)]
    rw [if_neg hsec]
    rw [if_neg h0]
    rcases ha : atobChars (s0.map urlUnrepl) with _ | sigBin
    · rfl
    · dsimp only
      by_cases hsig : sigBin = hmacSha256 (utf8Encode secret.data)
          (utf8Encode (b64urlEncode (headerJson.map Char.toNat) ++
            '.' :: b64urlEncode ((payloadJson id email exp).map Char.toNat)))
      · rw [if_pos hsig, if_pos hsig]
        rw [atob_b64urlEncode hpl]
        dsimp only
        rw [List.map_map]
        have hid : ((payloadJson id email exp).map (Char.ofNat ∘ Char.toNat)) =
            payloadJson id email exp := by
          rw [List.map_congr_left (fun c _ => by
            simp only [Function.comp]
            exact Char.ofNat_toNat c)]
          exact List.map_id _
        rw [hid, parseJson_payloadJson]
        dsimp only
        rw [show jLookup (payloadObj id email exp) "exp" = some (JVal.num (exp : Int)) from rfl]
        have hexp : jsExpired nowMs (some (JVal.num (exp : Int))) = false := by
          unfold jsExpired
          apply decide_eq_false
          omega
        rw [hexp]
        rfl
      · rw [if_neg hsig, if_neg hsig]

theorem encN_mem_facts {ms : List Nat} (hm : ∀ b ∈ ms, b < 256) :
    ∀ ch ∈ encN ms, isB64Ws ch = false ∧ ch ≠ '=' ∧ ch ≠ '.' ∧ (charSextet ch).isSome := by
  intro ch hch
  obtain ⟨n, hn, rfl⟩ := encN_sextets ms hm ch hch
  have f := sextet_facts n hn
  exact ⟨f.2.2.1, f.2.2.2.2.1, f.2.2.2.1, by rw [f.1]; rfl⟩

theorem atob_encN_set_some {ms : List Nat} (hm : ∀ b ∈ ms, b < 256) {i : Nat} {u : Char}
    {v : Nat} (hv : charSextet u = some v) (hlen : (encN ms).length % 4 = 3) :
    atobChars ((encN ms).set i u) = some (decode4 ((sexts ms).set i v)) := by
  obtain ⟨hv64, hwsu, hnequ, hdotu⟩ := charSextet_some_facts hv
  have hws : ∀ ch ∈ (encN ms).set i u, isB64Ws ch = false := by
    intro ch hch
    rcases List.mem_or_eq_of_mem_set hch with hin | rfl
    · exact (encN_mem_facts hm ch hin).1
    · exact hwsu
  have hne : ∀ ch ∈ (encN ms).set i u, ch ≠ '=' := by
    intro ch hch
    rcases List.mem_or_eq_of_mem_set hch with hin | rfl
    · exact (encN_mem_facts hm ch hin).2.1
    · exact hnequ
  rw [atobChars_nows hws hne, List.length_set]
  rw [if_neg (by omega)]
  rw [mapM_charSextet_set (encN ms) (sexts ms) i u v (mapM_charSextet_encN ms hm) hv]
  rfl

theorem atob_encN_set_none {ms : List Nat} (hm : ∀ b ∈ ms, b < 256) {i : Nat} {u : Char}
    (h0 : charSextet u = none) (hwsu : isB64Ws u = false) (hi : i < (encN ms).length)
    (hlen : (encN ms).length % 4 = 3) :
    atobChars ((encN ms).set i u) = none := by
  have humem : u ∈ (encN ms).set i u := by
    rw [List.set_eq_take_append_cons_drop, if_pos hi]
    exact List.mem_append_right _ (List.mem_cons_self _ _)
  have hws : ∀ ch ∈ (encN ms).set i u, isB64Ws ch = false := by
    intro ch hch
    rcases List.mem_or_eq_of_mem_set hch with hin | rfl
    · exact (encN_mem_facts hm ch hin).1
    · exact hwsu
  have hfself : ((encN ms).set i u).filter (fun ch => !isB64Ws ch) = (encN ms).set i u := by
    rw [List.filter_eq_self]
    intro ch hch
    rw [hws ch hch]
    rfl
  rw [atobChars_not1 hfself (Or.inr (by rw [List.length_set]; exact hlen))]
  rw [mapM_charSextet_none_of_mem humem h0]
  rfl

theorem atob_encN_set_ws {ms : List Nat} (hm : ∀ b ∈ ms, b < 256) {i : Nat} {u : Char}
    (hwsu : isB64Ws u = true) (hi : i < (encN ms).length) (hlen : (encN ms).length = 43) :
    ∃ ys : List Nat, atobChars ((encN ms).set i u) = some ys ∧ ys.length = 31 := by
  have hi43 : i < 43 := by rw [← hlen]; exact hi
  have hfil : ((encN ms).set i u).filter (fun ch => !isB64Ws ch) =
      (encN ms).take i ++ (encN ms).drop (i + 1) := by
    rw [List.set_eq_take_append_cons_drop, if_pos hi]
    rw [List.filter_append, List.filter_cons_of_neg (by rw [hwsu]; decide)]
    rw [List.filter_eq_self.mpr (by
      intro ch hch
      rw [(encN_mem_facts hm ch (List.mem_of_mem_take hch)).1]
      rfl)]
    rw [List.filter_eq_self.mpr (by
      intro ch hch
      rw [(encN_mem_facts hm ch (List.mem_of_mem_drop hch)).1]
      rfl)]
  have hlen2 : ((encN ms).take i ++ (encN ms).drop (i + 1)).length = 42 := by
    rw [List.length_append, List.length_take, List.length_drop, hlen]
    omega
  rw [atobChars_not1 hfil (Or.inl (by rw [hlen2]))]
  obtain ⟨ys, hys, hyl, _⟩ := mapM_charSextet_some_length
    ((encN ms).take i ++ (encN ms).drop (i + 1)) (by
      intro ch hch
      rcases List.mem_append.mp hch with hin | hin
      · exact (encN_mem_facts hm ch (List.mem_of_mem_take hin)).2.2.2
      · exact (encN_mem_facts hm ch (List.mem_of_mem_drop hin)).2.2.2)
  rw [hys]
  refine ⟨decode4 ys, rfl, ?_⟩
  rw [decode4_length, hyl, hlen2]
  decide

theorem atob_encN_take {ms : List Nat} (hm : ∀ b ∈ ms, b < 256) {i : Nat}
    (hi : i ≤ 42) (hlen : (encN ms).length = 43) :
    atobChars ((encN ms).take i) = none ∨
    ∃ ys, atobChars ((encN ms).take i) = some ys ∧ ys.length < 32 := by
  have htJ : ((encN ms).take i).length = i := by
    rw [List.length_take, hlen]
    omega
  have hws : ∀ ch ∈ (encN ms).take i, isB64Ws ch = false := by
    intro ch hch
    exact (encN_mem_facts hm ch (List.mem_of_mem_take hch)).1
  have hne : ∀ ch ∈ (encN ms).take i, ch ≠ '=' := by
    intro ch hch
    exact (encN_mem_facts hm ch (List.mem_of_mem_take hch)).2.1
  rw [atobChars_nows hws hne, htJ]
  by_cases h41 : i % 4 = 1
  · left
    rw [if_pos h41]
  · right
    rw [if_neg h41]
    obtain ⟨ys, hys, hyl, _⟩ := mapM_charSextet_some_length ((encN ms).take i) (by
      intro ch hch
      exact (encN_mem_facts hm ch (List.mem_of_mem_take hch)).2.2.2)
    rw [hys]
    refine ⟨decode4 ys, rfl, ?_⟩
    rw [decode4_length, hyl, htJ]
    split_ifs <;> omega

/-- C4 (amended): round trip of the codec — for every claims object
`\x7b id, email, exp \x7d` whose email stays within `btoa`'s latin1 domain,
every non-empty secret, and every time strictly before `exp`,
`generateJWT` succeeds and `verifyJWT` on its token returns exactly the
parsed claims object. -/
theorem c4_roundtrip (secret : String) (id : Nat) (email : String) (exp : Nat) (nowMs : Nat)
    (hsec : secret ≠ "") (hem : ∀ c ∈ email.data, c.toNat < 256)
    (hfut : nowMs < 1000 * exp) :
    generateJWT secret id email exp = some (jwtToken secret id email exp) ∧
    verifyJWT secret (jwtToken secret id email exp) nowMs = some (payloadObj id email exp) := by
  refine ⟨generateJWT_eq_some hsec hem, ?_⟩
  have hpl : ∀ b ∈ (payloadJson id email exp).map Char.toNat, b < 256 := by
    intro b hb
    rcases List.mem_map.mp hb with ⟨c, hc, rfl⟩
    exact payloadJson_latin1 hem c hc
  have hhl : ∀ b ∈ (headerJson).map Char.toNat, b < 256 := by decide
  unfold jwtToken jwtUnsigned
  rw [b64urlOfLatin1_eq, b64urlOfLatin1_eq]
  have hmacb := hmacSha256_lt (utf8Encode secret.data)
    (utf8Encode (b64urlEncode (headerJson.map Char.toNat) ++
      '.' :: b64urlEncode ((payloadJson id email exp).map Char.toNat)))
  have hsplit : splitOnDot ((b64urlEncode (headerJson.map Char.toNat) ++
      '.' :: b64urlEncode ((payloadJson id email exp).map Char.toNat)) ++
      '.' :: b64urlEncode (hmacSha256 (utf8Encode secret.data)
        (utf8Encode (b64urlEncode (headerJson.map Char.toNat) ++
          '.' :: b64urlEncode ((payloadJson id email exp).map Char.toNat))))) =
      [b64urlEncode (headerJson.map Char.toNat),
       b64urlEncode ((payloadJson id email exp).map Char.toNat),
       b64urlEncode (hmacSha256 (utf8Encode secret.data)
        (utf8Encode (b64urlEncode (headerJson.map Char.toNat) ++
          '.' :: b64urlEncode ((payloadJson id email exp).map Char.toNat))))] := by
    rw [List.append_assoc, List.cons_append]
    rw [splitOnDot_append _ _ (b64urlEncode_dotfree hhl)]
    rw [splitOnDot_append _ _ (b64urlEncode_dotfree hpl)]
    rw [splitOnDot_dotfree _ (b64urlEncode_dotfree hmacb)]
  unfold verifyJWT
  rw [hsplit]
  dsimp only
  rw [if_neg (by
    rintro (he | he | he)
    · exact b64urlEncode_ne_nil (by decide) he
    · refine b64urlEncode_ne_nil ?_ he
      simp only [ne_eq, List.map_eq_nil_iff]
      exact payloadJson_ne_nil id email exp
    · exact b64urlEncode_ne_nil (hmacSha256_ne_nil _ _) he)]
  rw [if_neg hsec]
  rw [atob_b64urlEncode hmacb]
  dsimp only
  rw [if_pos rfl]
  rw [atob_b64urlEncode hpl]
  dsimp only
  rw [List.map_map]
  have hid : ((payloadJson id email exp).map (Char.ofNat ∘ Char.toNat)) =
      payloadJson id email exp := by
    rw [List.map_congr_left (fun c _ => by
      simp only [Function.comp]
      exact Char.ofNat_toNat c)]
    exact List.map_id _
  rw [hid, parseJson_payloadJson]
  dsimp only
  rw [show jLookup (payloadObj id email exp) "exp" = some (JVal.num (exp : Int)) from rfl]
  have hexp : jsExpired nowMs (some (JVal.num (exp : Int))) = false := by
    unfold jsExpired
    apply decide_eq_false
    omega
  rw [hexp]
  rfl

/-- C4 (counterexample): for a claims object whose email contains a
character above code point 255 the round trip fails at encoding time —
`btoa` throws on the serialized payload, so no token exists to verify,
although `exp` can lie arbitrarily far in the future. -/
theorem c4_counterexample : generateJWT "sek" 1 "日@x.com" 5 = none := by decide

/-- C4 witness: the round trip at a concrete claims object and time. -/
theorem c4_roundtrip_witness :
    generateJWT "sek" 9 "w@x.io" 7 = some (jwtToken "sek" 9 "w@x.io" 7) ∧
    verifyJWT "sek" (jwtToken "sek" 9 "w@x.io" 7) 6999 = some (payloadObj 9 "w@x.io" 7) :=
  c4_roundtrip "sek" 9 "w@x.io" 7 6999 (by decide) (by decide) (by decide)

/-! ## Claim theorems -/

/-- C1 (counterexample): the login branch `hashed === stored || password ===
stored` also accepts a supplied password that equals the stored digest
field verbatim. Here the stored `password` column holds `"abc"`; the
SHA-256 hex digest of the supplied password `"abc"` differs from it, so
the claim demands a 401, yet the handler answers 200. -/
theorem c1_counterexample :
    hashPassword "abc" ≠ "abc" ∧
    (d1Login [⟨1, "ann", "a@b.c", "abc", none, none, "rc"⟩] "sek"
        1700000000000 "a@b.c" "abc").status = 200 := by
  constructor
  · decide
  · decide

/-- C1 (amended): for a login request with non-empty (normalized) email
and password naming an existing user, the handler returns 200 exactly
when the digest of the supplied password equals the stored digest OR the
supplied password itself equals the stored digest field (plaintext
fallback); when both comparisons fail it returns 401 with the generic
invalid-credentials body. (The stored email must be latin1 and the
secret non-empty for token issuance not to throw.) -/
theorem c1_login_status_iff (store : List User) (secret : String) (nowMs : Nat)
    (be bp : String) (u : User)
    (hbe : normEmail be ≠ "") (hbp : bp ≠ "")
    (hf : findUser store (normEmail be) = some u)
    (hsec : secret ≠ "") (hem : ∀ c ∈ u.email.data, c.toNat < 256) :
    ((d1Login store secret nowMs be bp).status = 200 ↔
      (hashPassword bp = u.password ∨ bp = u.password)) ∧
    (¬(hashPassword bp = u.password ∨ bp = u.password) →
      d1Login store secret nowMs be bp = ⟨401, invalidCredBody⟩) := by
  unfold d1Login
  rw [if_neg (by simp [hbe, hbp]), hf]
  dsimp only
  by_cases hv : hashPassword bp = u.password ∨ bp = u.password
  · rw [if_pos hv, generateJWT_eq_some hsec hem]
    exact ⟨⟨fun _ => hv, fun _ => rfl⟩, fun hn => absurd hv hn⟩
  · rw [if_neg hv]
    exact ⟨⟨fun h => absurd h (by decide), fun h => absurd h hv⟩, fun _ => rfl⟩

/-- C1 witness: concrete instance of `c1_login_status_iff` — correct
digest logs in with 200; and with wrong password the handler answers the
generic 401. -/
theorem c1_login_status_iff_witness :
    ((d1Login [⟨7, "ann", "a@b.c", hashPassword "pw-right", none, none, "rc"⟩]
        "sek" 1700000000000 "a@b.c" "pw-right").status = 200 ↔
      (hashPassword "pw-right" =
          hashPassword "pw-right" ∨ "pw-right" = hashPassword "pw-right")) ∧
    (¬(hashPassword "pw-right" =
          hashPassword "pw-right" ∨ "pw-right" = hashPassword "pw-right") →
      d1Login [⟨7, "ann", "a@b.c", hashPassword "pw-right", none, none, "rc"⟩]
          "sek" 1700000000000 "a@b.c" "pw-right" = ⟨401, invalidCredBody⟩) :=
  c1_login_status_iff _ "sek" 1700000000000 "a@b.c" "pw-right"
    ⟨7, "ann", "a@b.c", hashPassword "pw-right", none, none, "rc"⟩
    (by decide) (by decide) (by decide) (by decide) (by decide)

/-- C3: the forgot-lookup response is 200 in both cases, but the body for
an existing user (`"…follow the reset instructions you received."`)
differs from the body for an absent one (`"…instructions were sent."`),
contradicting the stated byte-identical enumeration resistance. -/
theorem c3_forgot_bodies_differ :
    (d1Forgot [⟨1, "ann", "ann@x.com", "pw", none, none, "rc"⟩] []
        "ann@x.com" none none).1.status = 200 ∧
    (d1Forgot [⟨1, "ann", "ann@x.com", "pw", none, none, "rc"⟩] []
        "bob@x.com" none none).1.status = 200 ∧
    (d1Forgot [⟨1, "ann", "ann@x.com", "pw", none, none, "rc"⟩] []
        "ann@x.com" none none).1.body ≠
      (d1Forgot [⟨1, "ann", "ann@x.com", "pw", none, none, "rc"⟩] []
        "bob@x.com" none none).1.body := by
  refine ⟨rfl, rfl, ?_⟩
  decide

/-- C7: login with a non-existent (normalized) email and login with an
existing email but a password failing both stored-credential comparisons
return the same 401 status and byte-identical `Invalid credentials`
bodies, over any store. -/
theorem c7_login_enumeration (store : List User) (secret : String) (nowMs : Nat)
    (e1 p1 e2 p2 : String) (u : User)
    (h1e : normEmail e1 ≠ "") (h1p : p1 ≠ "")
    (h1f : findUser store (normEmail e1) = none)
    (h2e : normEmail e2 ≠ "") (h2p : p2 ≠ "")
    (h2f : findUser store (normEmail e2) = some u)
    (hh : hashPassword p2 ≠ u.password) (hpl : p2 ≠ u.password) :
    d1Login store secret nowMs e1 p1 = ⟨401, invalidCredBody⟩ ∧
    d1Login store secret nowMs e2 p2 = ⟨401, invalidCredBody⟩ := by
  constructor
  · unfold d1Login
    rw [if_neg (by simp [h1e, h1p]), h1f]
  · unfold d1Login
    rw [if_neg (by simp [h2e, h2p]), h2f]
    dsimp only
    exact if_neg (by rintro (hc | hc) <;> [exact hh hc; exact hpl hc])

/-- C7 witness: a concrete store exercising both 401 paths of
`c7_login_enumeration`. -/
theorem c7_login_enumeration_witness :
    d1Login [⟨1, "n", "a@b.c", hashPassword "right", none, none, "rc"⟩]
        "sek" 0 "zed@b.c" "x" = ⟨401, invalidCredBody⟩ ∧
    d1Login [⟨1, "n", "a@b.c", hashPassword "right", none, none, "rc"⟩]
        "sek" 0 "a@b.c" "wrong" = ⟨401, invalidCredBody⟩ :=
  c7_login_enumeration _ "sek" 0 "zed@b.c" "x" "a@b.c" "wrong"
    ⟨1, "n", "a@b.c", hashPassword "right", none, none, "rc"⟩
    (by decide) (by decide) (by decide) (by decide) (by decide) (by decide)
    (by decide) (by decide)

/-- C9 (counterexample): the KV variant does not normalize the email:
after `handleSignUp` with `"Ann@X.com"`, `handleLogin` with
`"ann@x.com"` and the correct password misses the record (401), while
the verbatim key logs in (200). -/
theorem c9_counterexample :
    kvLogin (kvSignUp [] "salt-1" "uid-1" 0 "Ann@X.com" "secret12").2
        "tok-secret" 0 "ann@x.com" "secret12" = ⟨401, kvInvalidCredBody⟩ ∧
    (kvLogin (kvSignUp [] "salt-1" "uid-1" 0 "Ann@X.com" "secret12").2
        "tok-secret" 0 "Ann@X.com" "secret12").status = 200 := by
  constructor
  · decide
  · decide

/-- C9 (amended): the D1 handlers (signup, login, forgot, delete) depend
on the request email only through `trim().toLowerCase()` normalization —
two spellings with the same normalization are interchangeable, and
`"Ann@X.com"` normalizes to `"ann@x.com"`; the KV variant's
`handleSignUp`/`handleLogin` instead use the raw email as the store key,
so the differing spellings address different records. -/
theorem c9_email_normalization :
    (∀ store secret nowMs e1 e2 p, normEmail e1 = normEmail e2 →
      d1Login store secret nowMs e1 p = d1Login store secret nowMs e2 p) ∧
    (∀ store rand e1 e2 rc np, normEmail e1 = normEmail e2 →
      d1Forgot store rand e1 rc np = d1Forgot store rand e2 rc np) ∧
    (∀ store e1 e2, normEmail e1 = normEmail e2 →
      d1Delete store e1 = d1Delete store e2) ∧
    (∀ store rand i n e1 e2 p ph g, normEmail e1 = normEmail e2 →
      d1Signup store rand i n e1 p ph g = d1Signup store rand i n e2 p ph g) ∧
    normEmail "Ann@X.com" = "ann@x.com" ∧
    kvLogin (kvSignUp [] "salt-2" "uid-2" 0 "Ann@X.com" "secret12").2
        "tok-secret" 0 "ann@x.com" "secret12" = ⟨401, kvInvalidCredBody⟩ := by
  refine ⟨?_, ?_, ?_, ?_, by decide, by decide⟩
  · intro store secret nowMs e1 e2 p h
    unfold d1Login; rw [h]
  · intro store rand e1 e2 rc np h
    unfold d1Forgot; rw [h]
  · intro store e1 e2 h
    unfold d1Delete; rw [h]
  · intro store rand i n e1 e2 p ph g h
    unfold d1Signup; rw [h]

/-- C9 witness: instantiating the login-normalization clause at two
spellings of the same address. -/
theorem c9_email_normalization_witness :
    d1Login [] "sek" 0 " Ann@X.com " "p" = d1Login [] "sek" 0 "ann@x.com" "p" :=
  c9_email_normalization.1 [] "sek" 0 " Ann@X.com " "ann@x.com" "p" (by decide)

/-- C10: the KV `handleSignUp` answers 400 with the min-8-characters
message and leaves the store untouched whenever email or password is
missing (empty) or the password is shorter than 8 UTF-16 units. -/
theorem c10_kv_password_policy (store : List (String × KVUser))
    (uuidSalt uuidId : String) (nowMs : Nat) (email password : String)
    (h : email = "" ∨ password = "" ∨ password.length < 8) :
    kvSignUp store uuidSalt uuidId nowMs email password =
      (⟨400, "\x7b\"success\":false,\"message\":\"Invalid email or password (min 8 characters).\"\x7d"⟩,
       store) := by
  unfold kvSignUp
  rw [if_pos h]

/-- C10 witness: a 5-character password is rejected and nothing is
stored. -/
theorem c10_kv_password_policy_witness :
    ("short" : String).length < 8 ∧
    kvSignUp [] "s" "u" 0 "a@b.c" "short" =
      (⟨400, "\x7b\"success\":false,\"message\":\"Invalid email or password (min 8 characters).\"\x7d"⟩,
       []) :=
  ⟨by decide, c10_kv_password_policy [] "s" "u" 0 "a@b.c" "short"
    (Or.inr (Or.inr (by decide)))⟩

/-- C2 (counterexample): the expiry check is `Date.now()/1000 > exp`, so
at `nowMs = 5000` (now = exp = 5, i.e. now ≥ exp) a token with `exp = 5`
is still accepted; and a correctly signed token with no `exp` claim is
accepted at an arbitrarily late time (`undefined` compares false), not
rejected as the claim states. -/
theorem c2_counterexample :
    generateJWT "sek" 1 "a@b.c" 5 = some c2Token ∧
    verifyJWT "sek" c2Token 5000 = some (payloadObj 1 "a@b.c" 5) ∧
    verifyJWT "sek" c2NoExpToken 9000000000000000 = some [("id", JVal.num 1)] := by
  refine ⟨by decide, by decide, by decide⟩

/-- C2 (amended): expiry is strict — any accepted token with a numeric
`exp` claim satisfies `nowMs ≤ 1000·exp` (equivalently, `verify` rejects
only when now is strictly past `exp`); and a token accepted whose payload
lacks `exp` is immortal: it is accepted unchanged at every other time. -/
theorem c2_expiry_semantics :
    (∀ (secret : String) (token : List Char) (nowMs : Nat) (payload : JObj),
      verifyJWT secret token nowMs = some payload →
      ∀ e : Int, jLookup payload "exp" = some (JVal.num e) →
        (nowMs : Int) ≤ 1000 * e) ∧
    (∀ (secret : String) (token : List Char) (nowMs nowMs2 : Nat) (payload : JObj),
      verifyJWT secret token nowMs = some payload →
      jLookup payload "exp" = none →
      verifyJWT secret token nowMs2 = some payload) := by
  constructor
  · intro secret token nowMs payload h e he
    unfold verifyJWT at h
    rcases hs : splitOnDot token with _ | ⟨hB, _ | ⟨pB, _ | ⟨sB, rest⟩⟩⟩
    all_goals try rw [hs] at h
    all_goals try dsimp only at h
    all_goals try exact Option.noConfusion h
    by_cases hempty : hB = [] ∨ pB = [] ∨ sB = []
    · rw [if_pos hempty] at h; exact Option.noConfusion h
    · rw [if_neg hempty] at h
      by_cases hsec : secret = ""
      · rw [if_pos hsec] at h; exact Option.noConfusion h
      · rw [if_neg hsec] at h
        rcases ha : atobChars (sB.map urlUnrepl) with _ | sigBin
        all_goals try rw [ha] at h
        all_goals try dsimp only at h
        · exact Option.noConfusion h
        · by_cases hmac :
            sigBin = hmacSha256 (utf8Encode secret.data) (utf8Encode (hB ++ '.' :: pB))
          · rw [if_pos hmac] at h
            rcases hp : atobChars (pB.map urlUnrepl) with _ | payloadBytes
            all_goals try rw [hp] at h
            all_goals try dsimp only at h
            · exact Option.noConfusion h
            · rcases hj : parseJson (payloadBytes.map Char.ofNat) with _ | ps
              all_goals try rw [hj] at h
              all_goals try dsimp only at h
              · exact Option.noConfusion h
              · by_cases hx : jsExpired nowMs (jLookup ps "exp") = true
                · rw [if_pos hx] at h; exact Option.noConfusion h
                · rw [if_neg hx] at h
                  rw [Option.some.injEq] at h
                  subst h
                  rw [he] at hx
                  unfold jsExpired at hx
                  simp at hx
                  omega
          · rw [if_neg hmac] at h; exact Option.noConfusion h
  · intro secret token nowMs nowMs2 payload h hnone
    unfold verifyJWT at h ⊢
    rcases hs : splitOnDot token with _ | ⟨hB, _ | ⟨pB, _ | ⟨sB, rest⟩⟩⟩
    all_goals try rw [hs] at h
    all_goals try dsimp only at h
    all_goals try dsimp only
    all_goals try exact Option.noConfusion h
    by_cases hempty : hB = [] ∨ pB = [] ∨ sB = []
    · rw [if_pos hempty] at h; exact Option.noConfusion h
    · rw [if_neg hempty] at h ⊢
      by_cases hsec : secret = ""
      · rw [if_pos hsec] at h; exact Option.noConfusion h
      · rw [if_neg hsec] at h ⊢
        rcases ha : atobChars (sB.map urlUnrepl) with _ | sigBin
        all_goals try rw [ha] at h
        all_goals try dsimp only at h
        all_goals try dsimp only
        · exact Option.noConfusion h
        · by_cases hmac :
            sigBin = hmacSha256 (utf8Encode secret.data) (utf8Encode (hB ++ '.' :: pB))
          · rw [if_pos hmac] at h ⊢
            rcases hp : atobChars (pB.map urlUnrepl) with _ | payloadBytes
            all_goals try rw [hp] at h
            all_goals try dsimp only at h
            all_goals try dsimp only
            · exact Option.noConfusion h
            · rcases hj : parseJson (payloadBytes.map Char.ofNat) with _ | ps
              all_goals try rw [hj] at h
              all_goals try dsimp only at h
              all_goals try dsimp only
              · exact Option.noConfusion h
              · by_cases hx : jsExpired nowMs (jLookup ps "exp") = true
                · rw [if_pos hx] at h; exact Option.noConfusion h
                · rw [if_neg hx] at h
                  rw [Option.some.injEq] at h
                  subst h
                  rw [hnone]
                  rfl
          · rw [if_neg hmac] at h; exact Option.noConfusion h

/-- C2 witness: instantiating the strict-expiry clause at the concrete
accepted token with `exp = 5` and `nowMs = 5000` yields `5000 ≤ 5000`. -/
theorem c2_expiry_semantics_witness :
    (5000 : Int) ≤ 1000 * 5 :=
  c2_expiry_semantics.1 "sek" c2Token 5000 (payloadObj 1 "a@b.c" 5)
    (by decide) 5 (by decide)

/-- C6 (counterexample): `const [h, p, s] = token.split(".")` ignores
segments beyond the third, so a token with four dot-separated segments —
a valid token plus `.junk` — is accepted, though the claim requires any
input without exactly three parts to be rejected. -/
theorem c6_counterexample :
    (splitOnDot ((generateJWT "sek" 2 "b@c.d" 7).getD [] ++
        '.' :: ('j' :: 'u' :: 'n' :: 'k' :: []))).length = 4 ∧
    verifyJWT "sek" ((generateJWT "sek" 2 "b@c.d" 7).getD [] ++
        '.' :: ('j' :: 'u' :: 'n' :: 'k' :: [])) 6999 =
      some (payloadObj 2 "b@c.d" 7) := by
  refine ⟨by decide, by decide⟩

/-- C6 (amended): `verify` returns the invalid sentinel (never throwing —
it is a total function returning `Option`) whenever splitting on `.`
yields fewer than three parts or any of the FIRST three parts is empty;
parts after the third are ignored rather than rejected. -/
theorem c6_first_three_segments (secret : String) (token : List Char) (nowMs : Nat)
    (h : (splitOnDot token).length < 3 ∨ [] ∈ (splitOnDot token).take 3) :
    verifyJWT secret token nowMs = none := by
  unfold verifyJWT
  rcases hs : splitOnDot token with _ | ⟨hB, _ | ⟨pB, _ | ⟨sB, rest⟩⟩⟩
  all_goals try rw [hs] at h
  all_goals try dsimp only
  rcases h with hlen | hmem
  · simp only [List.length_cons] at hlen; omega
  · rw [show List.take 3 (hB :: pB :: sB :: rest) = [hB, pB, sB] from rfl] at hmem
    simp only [List.mem_cons, List.not_mem_nil, or_false] at hmem
    have hempty : hB = [] ∨ pB = [] ∨ sB = [] := by
      rcases hmem with h1 | h1 | h1
      · exact Or.inl h1.symm
      · exact Or.inr (Or.inl h1.symm)
      · exact Or.inr (Or.inr h1.symm)
    rw [if_pos hempty]

/-- C6 witness: a one-segment input is rejected. -/
theorem c6_first_three_segments_witness :
    verifyJWT "sek" ('a' :: 'b' :: []) 0 = none :=
  c6_first_three_segments "sek" ('a' :: 'b' :: []) 0 (Or.inl (by decide))

/-- C8: a successful forgot-reset replaces the stored password digest and
recovery-code digest in the single row update the code issues, and â
since the freshly generated code hashes differently â a second reset
attempt with the same, now-stale recovery code fails with 401 and leaves
the store unchanged. -/
theorem c8_recovery_single_use (store : List User) (rand1 rand2 : List Nat)
    (e code npw npw2 : String) (u : User)
    (he : normEmail e ≠ "")
    (hf : findUser store (normEmail e) = some u)
    (hcode : code ≠ "") (hnpw : npw ≠ "") (hnpw2 : npw2 ≠ "")
    (hmatch : hashPassword code = u.recovery)
    (hfresh : hashPassword code ≠ hashPassword (makeRecoveryCode rand1)) :
    d1Forgot store rand1 e (some code) (some npw) =
      (⟨200, resetOkBody (makeRecoveryCode rand1)⟩,
        store.map (fun v => if v.id = u.id then
          { v with password := hashPassword npw,
                   recovery := hashPassword (makeRecoveryCode rand1) } else v)) ∧
    d1Forgot (store.map (fun v => if v.id = u.id then
          { v with password := hashPassword npw,
                   recovery := hashPassword (makeRecoveryCode rand1) } else v))
        rand2 e (some code) (some npw2) =
      (⟨401, "\x7b\"error\":\"Invalid recovery code\"\x7d"⟩,
        store.map (fun v => if v.id = u.id then
          { v with password := hashPassword npw,
                   recovery := hashPassword (makeRecoveryCode rand1) } else v)) := by
  have htr : (truthy (some code) && truthy (some npw)) = true := by
    simp [truthy, hcode, hnpw]
  have htr2 : (truthy (some code) && truthy (some npw2)) = true := by
    simp [truthy, hcode, hnpw2]
  constructor
  · unfold d1Forgot
    rw [if_neg he, hf]
    dsimp only
    rw [if_pos htr, if_neg (fun hne => hne hmatch)]
    rfl
  · have hemail : ∀ v : User,
        (if v.id = u.id then
          { v with password := hashPassword npw,
                   recovery := hashPassword (makeRecoveryCode rand1) } else v).email =
        v.email := by
      intro v
      by_cases hv : v.id = u.id
      · rw [if_pos hv]
      · rw [if_neg hv]
    have hfind2 : findUser (store.map (fun v => if v.id = u.id then
          { v with password := hashPassword npw,
                   recovery := hashPassword (makeRecoveryCode rand1) } else v))
        (normEmail e) =
        some { u with password := hashPassword npw,
                      recovery := hashPassword (makeRecoveryCode rand1) } := by
      unfold findUser at hf ⊢
      rw [List.find?_map]
      have hp : ((fun v : User => decide (v.email = normEmail e)) ∘
          (fun v => if v.id = u.id then
            { v with password := hashPassword npw,
                     recovery := hashPassword (makeRecoveryCode rand1) } else v)) =
          (fun v : User => decide (v.email = normEmail e)) := by
        funext v
        simp only [Function.comp]
        rw [hemail v]
      rw [hp, hf]
      dsimp only [Option.map]
      rw [if_pos rfl]
    unfold d1Forgot
    rw [if_neg he, hfind2]
    dsimp only
    rw [if_pos htr2,
      if_pos (show hashPassword ((some code).getD "") ≠
          hashPassword (makeRecoveryCode rand1) from hfresh)]

/-- C8 witness: concrete two-step scenario; the stale code "RECOVERY-X12"
is rejected on the second attempt. -/
theorem c8_recovery_single_use_witness :
    d1Forgot [⟨3, "bob", "bob@x.com", hashPassword "oldpw", none, none,
        hashPassword "RECOVERY-X12"⟩] [0, 1, 2, 3, 4, 5, 6, 7, 8, 9, 10, 11]
        "bob@x.com" (some "RECOVERY-X12") (some "new-password") =
      (⟨200, resetOkBody (makeRecoveryCode [0, 1, 2, 3, 4, 5, 6, 7, 8, 9, 10, 11])⟩,
        [⟨3, "bob", "bob@x.com", hashPassword "oldpw", none, none,
            hashPassword "RECOVERY-X12"⟩].map (fun v => if v.id = 3 then
          { v with password := hashPassword "new-password",
                   recovery := hashPassword
                     (makeRecoveryCode [0, 1, 2, 3, 4, 5, 6, 7, 8, 9, 10, 11]) } else v)) ∧
    d1Forgot ([⟨3, "bob", "bob@x.com", hashPassword "oldpw", none, none,
            hashPassword "RECOVERY-X12"⟩].map (fun v => if v.id = 3 then
          { v with password := hashPassword "new-password",
                   recovery := hashPassword
                     (makeRecoveryCode [0, 1, 2, 3, 4, 5, 6, 7, 8, 9, 10, 11]) } else v))
        [4, 4, 4, 4, 4, 4, 4, 4, 4, 4, 4, 4]
        "bob@x.com" (some "RECOVERY-X12") (some "other-password") =
      (⟨401, "\x7b\"error\":\"Invalid recovery code\"\x7d"⟩,
        [⟨3, "bob", "bob@x.com", hashPassword "oldpw", none, none,
            hashPassword "RECOVERY-X12"⟩].map (fun v => if v.id = 3 then
          { v with password := hashPassword "new-password",
                   recovery := hashPassword
                     (makeRecoveryCode [0, 1, 2, 3, 4, 5, 6, 7, 8, 9, 10, 11]) } else v)) :=
  c8_recovery_single_use
    [⟨3, "bob", "bob@x.com", hashPassword "oldpw", none, none,
        hashPassword "RECOVERY-X12"⟩]
    [0, 1, 2, 3, 4, 5, 6, 7, 8, 9, 10, 11] [4, 4, 4, 4, 4, 4, 4, 4, 4, 4, 4, 4]
    "bob@x.com" "RECOVERY-X12" "new-password" "other-password"
    ⟨3, "bob", "bob@x.com", hashPassword "oldpw", none, none,
        hashPassword "RECOVERY-X12"⟩
    (by decide) (by decide) (by decide) (by decide) (by decide) rfl (by decide)

/-- C5 (amended): for a token generated for claims `\x7b id, email, exp \x7d`
(latin1 email, non-empty secret) checked before expiry, changing the
signature segment character at position `i < 43` to `c` behaves as
follows. If `c` url-unreplaces to a base64 alphabet character with sextet
value `v`, the altered token verifies exactly when `v` equals the
original sextet at `i` (so the distinct characters `-`/`+` and `_`/`/`
are interchangeable anywhere in the segment), or `i` is the final
position `42` and `v` agrees with the original sextet on the four used
high bits (the decoder discards the last two bits of the 43rd
character). If `c` has no sextet value (whitespace, `=`, `.`, or any
character outside the alphabet), the altered token is always
rejected. -/
theorem c5_tamper (secret : String) (id : Nat) (email : String) (exp nowMs : Nat)
    (hsec : secret ≠ "") (hem : ∀ ch ∈ email.data, ch.toNat < 256)
    (hfut : nowMs < 1000 * exp) (i : Nat) (hi : i < 43) (c : Char) :
    (∀ v, charSextet (urlUnrepl c) = some v →
      (verifyJWT secret (tamperSig secret id email exp i c) nowMs =
          some (payloadObj id email exp) ↔
        (v = sigSext secret id email exp i ∨
          (i = 42 ∧ v / 4 = sigSext secret id email exp i / 4)))) ∧
    (charSextet (urlUnrepl c) = none →
      verifyJWT secret (tamperSig secret id email exp i c) nowMs = none) := by
  have hmac32 : (hmacSha256 (utf8Encode secret.data)
      (utf8Encode (jwtUnsigned id email exp))).length = 32 := hmacSha256_length _ _
  have hmlt := hmacSha256_lt (utf8Encode secret.data) (utf8Encode (jwtUnsigned id email exp))
  have hsx43 : (sexts (hmacSha256 (utf8Encode secret.data)
      (utf8Encode (jwtUnsigned id email exp)))).length = 43 := by
    rw [sexts_length, hmac32]
    decide
  have henc43 : (encN (hmacSha256 (utf8Encode secret.data)
      (utf8Encode (jwtUnsigned id email exp)))).length = 43 := by
    rw [encN_eq_map, List.length_map]
    exact hsx43
  have hb43 : (b64urlEncode (hmacSha256 (utf8Encode secret.data)
      (utf8Encode (jwtUnsigned id email exp)))).length = 43 := by
    rw [b64urlEncode_eq, List.length_map]
    exact henc43
  constructor
  · intro v hv
    obtain ⟨hv64, hwsu, hnequ, hdotu⟩ := charSextet_some_facts hv
    have hcd : c ≠ '.' := by
      intro hc
      rw [hc] at hv
      rw [show charSextet (urlUnrepl '.') = none from rfl] at hv
      exact Option.noConfusion hv
    have hsBdot : '.' ∉ (b64urlEncode (hmacSha256 (utf8Encode secret.data)
        (utf8Encode (jwtUnsigned id email exp)))).set i c := by
      intro hmem
      rcases List.mem_or_eq_of_mem_set hmem with hin | heq
      · exact b64urlEncode_dotfree hmlt hin
      · exact hcd heq.symm
    rw [show tamperSig secret id email exp i c = jwtUnsigned id email exp ++ '.' ::
      (b64urlEncode (hmacSha256 (utf8Encode secret.data)
        (utf8Encode (jwtUnsigned id email exp)))).set i c from rfl]
    rw [show sigSext secret id email exp i = (sexts (hmacSha256 (utf8Encode secret.data)
      (utf8Encode (jwtUnsigned id email exp)))).getD i 0 from rfl]
    rw [verify_with_sig secret id email exp nowMs hsec hem hfut _ _ _
      (splitOnDot_dotfree _ hsBdot)]
    rw [if_neg (by
      intro he
      have hl := congrArg List.length he
      rw [List.length_set, hb43] at hl
      exact absurd hl (by decide))]
    rw [List.map_set, b64url_map_urlUnrepl hmlt]
    rw [atob_encN_set_some hmlt hv (by rw [henc43])]
    dsimp only
    have hiff := decode4_set_iff (sexts (hmacSha256 (utf8Encode secret.data)
      (utf8Encode (jwtUnsigned id email exp)))) i v (by rw [hsx43]) (by rw [hsx43]; exact hi)
      hv64
    rw [decode4_sexts _ hmlt] at hiff
    rw [hsx43] at hiff
    rw [show (43 : Nat) - 1 = 42 from rfl] at hiff
    constructor
    · intro hacc
      by_cases hcond : decode4 ((sexts (hmacSha256 (utf8Encode secret.data)
          (utf8Encode (jwtUnsigned id email exp)))).set i v) =
          hmacSha256 (utf8Encode secret.data) (utf8Encode (jwtUnsigned id email exp))
      · exact hiff.mp hcond
      · rw [if_neg hcond] at hacc
        exact Option.noConfusion hacc
    · intro hcond
      rw [if_pos (hiff.mpr hcond)]
  · intro h0
    rw [show tamperSig secret id email exp i c = jwtUnsigned id email exp ++ '.' ::
      (b64urlEncode (hmacSha256 (utf8Encode secret.data)
        (utf8Encode (jwtUnsigned id email exp)))).set i c from rfl]
    by_cases hcd : c = '.'
    · subst hcd
      have htake_dot : '.' ∉ (b64urlEncode (hmacSha256 (utf8Encode secret.data)
          (utf8Encode (jwtUnsigned id email exp)))).take i := by
        intro hmem
        exact b64urlEncode_dotfree hmlt (List.mem_of_mem_take hmem)
      have hsplit2 : splitOnDot ((b64urlEncode (hmacSha256 (utf8Encode secret.data)
          (utf8Encode (jwtUnsigned id email exp)))).set i '.') =
          (b64urlEncode (hmacSha256 (utf8Encode secret.data)
            (utf8Encode (jwtUnsigned id email exp)))).take i ::
          splitOnDot ((b64urlEncode (hmacSha256 (utf8Encode secret.data)
            (utf8Encode (jwtUnsigned id email exp)))).drop (i + 1)) := by
        rw [List.set_eq_take_append_cons_drop, if_pos (by rw [hb43]; exact hi)]
        rw [splitOnDot_append _ _ htake_dot]
      rw [verify_with_sig secret id email exp nowMs hsec hem hfut _ _ _ hsplit2]
      by_cases hi0 : i = 0
      · subst hi0
        rw [if_pos (show (b64urlEncode (hmacSha256 (utf8Encode secret.data)
          (utf8Encode (jwtUnsigned id email exp)))).take 0 = [] from rfl)]
      · rw [if_neg (by
          intro he
          have hl := congrArg List.length he
          rw [List.length_take, hb43] at hl
          simp only [List.length_nil] at hl
          omega)]
        rw [List.map_take, b64url_map_urlUnrepl hmlt]
        rcases atob_encN_take hmlt (show i ≤ 42 by omega) henc43 with hnone | ⟨ys, hys, hylt⟩
        · rw [hnone]
        · rw [hys]
          dsimp only
          rw [if_neg (by
            intro he
            have hl := congrArg List.length he
            rw [hmac32] at hl
            omega)]
    · have hsBdot : '.' ∉ (b64urlEncode (hmacSha256 (utf8Encode secret.data)
          (utf8Encode (jwtUnsigned id email exp)))).set i c := by
        intro hmem
        rcases List.mem_or_eq_of_mem_set hmem with hin | heq
        · exact b64urlEncode_dotfree hmlt hin
        · exact hcd heq.symm
      rw [verify_with_sig secret id email exp nowMs hsec hem hfut _ _ _
        (splitOnDot_dotfree _ hsBdot)]
      rw [if_neg (by
        intro he
        have hl := congrArg List.length he
        rw [List.length_set, hb43] at hl
        exact absurd hl (by decide))]
      rw [List.map_set, b64url_map_urlUnrepl hmlt]
      by_cases hws : isB64Ws (urlUnrepl c) = true
      · obtain ⟨ys, hys, hyl⟩ := atob_encN_set_ws hmlt hws (by rw [henc43]; exact hi) henc43
        rw [hys]
        dsimp only
        rw [if_neg (by
          intro he
          have hl := congrArg List.length he
          rw [hyl, hmac32] at hl
          omega)]
      · have hwsf : isB64Ws (urlUnrepl c) = false := by
          cases hb : isB64Ws (urlUnrepl c)
          · rfl
          · exact absurd hb hws
        rw [atob_encN_set_none hmlt h0 hwsf (by rw [henc43]; exact hi) (by rw [henc43])]

/-- C5 (counterexample): the signature decoder ignores the trailing two
bits of the final base64url character, so changing the last signature
character of a valid unexpired token (here from `4`, sextet 56, to `5`,
sextet 57) yields a different token that still verifies — refuting the
claim that every single-character change of the signature segment is
rejected. -/
theorem c5_counterexample :
    tamperSig "tam" 1 "a@b.c" 5 42 '5' ≠ jwtToken "tam" 1 "a@b.c" 5 ∧
    verifyJWT "tam" (tamperSig "tam" 1 "a@b.c" 5 42 '5') 4000 =
      some (payloadObj 1 "a@b.c" 5) := by
  refine ⟨by decide, by decide⟩

/-- C5 witness: instantiating the characterization at position 9 of the
concrete signature, whose character is `-`: replacing it with `+` (same
sextet 62) is accepted by the left disjunct of the amended condition. -/
theorem c5_tamper_witness :
    verifyJWT "tam" (tamperSig "tam" 1 "a@b.c" 5 9 '+') 4000 =
      some (payloadObj 1 "a@b.c" 5) :=
  ((c5_tamper "tam" 1 "a@b.c" 5 4000 (by decide) (by decide) (by decide) 9 (by decide)
    '+').1 62 (by decide)).mpr (Or.inl (by decide))

end Iotpro
